import Mathlib

/-!
Verification of the price/battery optimization engine of the
`battery_energy_trading` integration (`energy_optimizer.py`).

Conventions of the shallow embedding:
* timestamps are rationals measured in hours (the source uses `datetime`;
  only differences in hours and truncation to whole hours are ever used);
* cache timestamps are rationals measured in minutes;
* all prices, energies and percentages are rationals (`float` in the source);
* a Python `dict` that is read with `.get(key, default)` is embedded as a
  plain field with the default standing for an absent key; presence-sensitive
  keys (`battery_before`, `battery_after`, `slot_count`,
  `estimated_battery_level`) are embedded as `Option`;
* Python's stable `sorted(..., key=...)` is embedded as the stable insertion
  sort `sortByLe` below (stable sorts agree as functions);
* fallible paths (early returns that bypass the result cache) are made
  explicit with `Option`.
-/

namespace BET

/-- Stable insertion into a list: the new element goes in front of the first
element it compares `le` to, so ties keep their original relative order,
exactly like Python's stable sort. -/
def insertByLe {α : Type} (le : α → α → Bool) (a : α) : List α → List α
  | [] => [a]
  | b :: l => if le a b then a :: b :: l else b :: insertByLe le a l

/-- Stable insertion sort; the embedding of Python's `sorted(..., key=...)`
(with `le` comparing the keys). -/
def sortByLe {α : Type} (le : α → α → Bool) : List α → List α
  | [] => []
  | a :: l => insertByLe le a (sortByLe le l)

/-- A raw market price slot (`{'start': ..., 'end': ..., 'value': ...}` in the
source; `end` is a Lean keyword, so the field is called `stop`). -/
structure PriceSlot where
  start : ℚ
  stop : ℚ
  value : ℚ
deriving DecidableEq

instance : Inhabited PriceSlot := ⟨⟨0, 0, 0⟩⟩

/-- A feasible slot emitted by `_project_battery_state` (the source's
`slot.copy()` enriched with `battery_before`, `battery_after`, `feasible`,
`energy_kwh` and `price`; `feasible` is always `True` on emitted slots and is
therefore omitted). -/
structure ProjSlot where
  start : ℚ
  stop : ℚ
  value : ℚ
  price : ℚ
  energy_kwh : ℚ
  battery_before : ℚ
  battery_after : ℚ
deriving DecidableEq

/-- A selected (or merged) slot record.  `revenue` and `cost` are read by the
source only through `.get(..., 0)`, so an absent key is embedded as `0`;
`battery_before` / `battery_after` / `slot_count` / `estimated_battery_level`
are presence-sensitive and embedded as `Option`.  `clamped` models the
source's `partial_discharge` flag (absent = `false`). -/
structure SelSlot where
  start : ℚ
  stop : ℚ
  price : ℚ
  energy_kwh : ℚ
  duration_hours : ℚ
  revenue : ℚ
  cost : ℚ
  battery_before : Option ℚ
  battery_after : Option ℚ
  clamped : Bool
  slot_count : Option ℕ
  est_level : Option ℚ
deriving DecidableEq

/-- `_validate_inputs`: clamp capacity and rate to `≥ 0` and level to
`[0, 100]`. -/
def validate_inputs (battery_capacity battery_level rate : ℚ) : ℚ × ℚ × ℚ :=
  (max 0 battery_capacity, max 0 (min 100 battery_level), max 0 rate)

/-- `_merge_price_data`: append tomorrow's slots, dropping those that start
before today's last slot ends. -/
def merge_price_data (raw_today raw_tomorrow : List PriceSlot) : List PriceSlot :=
  if raw_tomorrow = [] then raw_today
  else
    match raw_today.getLast? with
    | none => raw_today ++ raw_tomorrow
    | some last =>
        raw_today ++ raw_tomorrow.filter (fun s => decide (last.stop ≤ s.start))

/-- `_calculate_slot_duration`: spacing of the first two slots, in hours;
default 15 minutes. -/
def calculate_slot_duration (raw_prices : List PriceSlot) : ℚ :=
  match raw_prices with
  | a :: b :: _ => b.start - a.start
  | _ => 1 / 4

/-- Lookup in an hour-keyed watt-hour forecast (`normalized_wh.get(key, 0.0)`).
Later entries overwrite earlier ones, as in a Python dict built by insertion,
so the last matching entry wins. -/
def lookupWh (wh : List (ℚ × ℚ)) (k : ℚ) : ℚ :=
  ((wh.reverse.find? (fun p => decide (p.1 = k))).map Prod.snd).getD 0

/-- Lookup of a slot-start key in the solar battery-level estimates
(`solar_battery_estimates.get(slot["start"])`); `none` models a missing key. -/
def lookupLevel (levels : List (ℚ × ℚ)) (k : ℚ) : Option ℚ :=
  (levels.reverse.find? (fun p => decide (p.1 = k))).map Prod.snd

/-- Python `int(...)` truncation toward zero on a rational. -/
def ratTrunc (q : ℚ) : ℤ :=
  if q < 0 then -⌊-q⌋ else ⌊q⌋

/-- Sum of `n` consecutive whole-hour forecast buckets starting at hour `h0`
(the `while current_hour < end_time` loop body). -/
def sumHours (wh : List (ℚ × ℚ)) : ℤ → ℕ → ℚ
  | _, 0 => 0
  | h0, n + 1 => lookupWh wh (h0 : ℚ) + sumHours wh (h0 + 1) n

/-- `_calculate_solar_between_slots`: iterate whole hours from the hour
containing `prevStop` (the first slot's `end`, truncated with
`.replace(minute=0, ...)`) while strictly before `nextStart`, summing the
forecast buckets; result converted from Wh to kWh.  The number of loop
iterations is `⌈nextStart⌉ - ⌊prevStop⌋` (clamped at 0), since the loop visits
exactly the integers of `[⌊prevStop⌋, nextStart)`. -/
def calculate_solar_between_slots (prevStop nextStart : ℚ) (wh : List (ℚ × ℚ)) : ℚ :=
  sumHours wh ⌊prevStop⌋ (-⌊-nextStart⌋ - ⌊prevStop⌋).toNat / 1000

/-- The claim's version of the inter-slot solar sum, following its words
("sum all whole-hour forecasted solar buckets falling between the end of
slot *i-1* and the start of slot *i*"): the buckets whose hour key lies in
`[prevStop, nextStart)`.  Kept for comparison with
`calculate_solar_between_slots`, which instead starts at the hour containing
`prevStop`. -/
def solar_between_claimed (prevStop nextStart : ℚ) (wh : List (ℚ × ℚ)) : ℚ :=
  (∑ h ∈ Finset.Ico ⌈prevStop⌉ ⌈nextStart⌉, lookupWh wh (h : ℚ)) / 1000

/-- Loop body of `_estimate_solar_impact`.  A positive bucket raises the
running level by `(wh/1000) / capacity * 100`, capped at 100; with a zero
capacity that division raises `ZeroDivisionError`, which the source catches by
returning `{}` — modelled by `none`.  Each slot writes its (possibly
unchanged) level into the estimate dict. -/
def estimate_go (wh : List (ℚ × ℚ)) (battery_capacity : ℚ) :
    List PriceSlot → ℚ → List (ℚ × ℚ) → Option (List (ℚ × ℚ))
  | [], _, acc => some acc
  | s :: rest, lvl, acc =>
    if 0 < lookupWh wh s.start then
      if battery_capacity = 0 then none
      else
        estimate_go wh battery_capacity rest
          (min 100 (lvl + lookupWh wh s.start / 1000 / battery_capacity * 100))
          (acc ++ [(s.start, min 100 (lvl + lookupWh wh s.start / 1000 / battery_capacity * 100))])
    else estimate_go wh battery_capacity rest lvl (acc ++ [(s.start, lvl)])

/-- `_estimate_solar_impact`: estimated battery level (%) at each slot start,
from the hourly solar forecast.  Empty forecast, empty slot list or an
exception all yield the empty dict. -/
def estimate_solar_impact (price_slots : List PriceSlot)
    (solar_forecast_data : Option (List (ℚ × ℚ)))
    (battery_capacity current_battery_level : ℚ) : List (ℚ × ℚ) :=
  match solar_forecast_data with
  | none => []
  | some wh =>
    if price_slots = [] then []
    else if wh = [] then []
    else (estimate_go wh battery_capacity price_slots current_battery_level []).getD []

/-- Solar credit applied to the running battery before a slot is examined:
for every slot but the first (`prev = some p`), and only when a forecast is
supplied and the generated energy is positive, add it capped at capacity. -/
def solar_credit (battery_capacity_kwh : ℚ) (prev : Option PriceSlot)
    (solar_forecast_data : Option (List (ℚ × ℚ))) (s : PriceSlot) (b : ℚ) : ℚ :=
  match prev, solar_forecast_data with
  | some p, some wh =>
    if 0 < calculate_solar_between_slots p.stop s.start wh then
      min (b + calculate_solar_between_slots p.stop s.start wh) battery_capacity_kwh
    else b
  | _, _ => b

/-- The walk of `_project_battery_state`: credit solar since the previous
slot, then emit the slot iff the running battery covers `rate * duration`,
debiting it when it does. -/
def project_go (battery_capacity_kwh discharge_rate_kw slot_duration_hours : ℚ)
    (solar_forecast_data : Option (List (ℚ × ℚ))) :
    Option PriceSlot → List PriceSlot → ℚ → List ProjSlot
  | _, [], _ => []
  | prev, s :: rest, b =>
    if discharge_rate_kw * slot_duration_hours ≤
        solar_credit battery_capacity_kwh prev solar_forecast_data s b then
      ⟨s.start, s.stop, s.value, s.value, discharge_rate_kw * slot_duration_hours,
        solar_credit battery_capacity_kwh prev solar_forecast_data s b,
        solar_credit battery_capacity_kwh prev solar_forecast_data s b -
          discharge_rate_kw * slot_duration_hours⟩ ::
        project_go battery_capacity_kwh discharge_rate_kw slot_duration_hours
          solar_forecast_data (some s) rest
          (solar_credit battery_capacity_kwh prev solar_forecast_data s b -
            discharge_rate_kw * slot_duration_hours)
    else
      project_go battery_capacity_kwh discharge_rate_kw slot_duration_hours
        solar_forecast_data (some s) rest
        (solar_credit battery_capacity_kwh prev solar_forecast_data s b)

/-- `_project_battery_state`: sort candidates by start time and walk them. -/
def project_battery_state (slots : List PriceSlot)
    (initial_battery_kwh battery_capacity_kwh discharge_rate_kw slot_duration_hours : ℚ)
    (solar_forecast_data : Option (List (ℚ × ℚ))) : List ProjSlot :=
  project_go battery_capacity_kwh discharge_rate_kw slot_duration_hours
    solar_forecast_data none
    (sortByLe (fun a b => decide (a.start ≤ b.start)) slots) initial_battery_kwh

/-- Record built for a selected slot on the solar-aware discharge path
(lines 520–531 / 535–547 of the source). -/
def projToSel (slot_duration_hours : ℚ) (p : ProjSlot) : SelSlot :=
  ⟨p.start, p.stop, p.price, p.energy_kwh, slot_duration_hours,
    p.energy_kwh * p.price, 0, some p.battery_before, some p.battery_after,
    false, none, none⟩

/-- Record built for a selected slot on the legacy discharge path
(lines 580–590 of the source). -/
def legacySel (slot_duration_hours : ℚ) (s : PriceSlot) (energy_this_slot : ℚ)
    (slot_battery_level : Option ℚ) : SelSlot :=
  ⟨s.start, s.stop, s.value, energy_this_slot, slot_duration_hours,
    energy_this_slot * s.value, 0, none, none, false, none, slot_battery_level⟩

/-- Record built for a selected charging slot (lines 769–778 of the source). -/
def chargeSel (slot_duration_hours : ℚ) (s : PriceSlot) (energy_this_slot : ℚ) : SelSlot :=
  ⟨s.start, s.stop, s.value, energy_this_slot, slot_duration_hours,
    0, energy_this_slot * s.value, none, none, false, none, none⟩

/-- Greedy accumulation under the `max_hours` cap on the solar-aware path:
a slot is taken iff the running total plus one slot duration still fits
(the loop has no break, so later slots are still examined). -/
def greedy_hours (slot_duration_hours max_hours : ℚ) :
    List ProjSlot → ℚ → List SelSlot
  | [], _ => []
  | p :: rest, total_hours =>
    if total_hours + slot_duration_hours ≤ max_hours then
      projToSel slot_duration_hours p ::
        greedy_hours slot_duration_hours max_hours rest (total_hours + slot_duration_hours)
    else greedy_hours slot_duration_hours max_hours rest total_hours

/-- Greedy energy accumulation on the legacy discharge path (lines 566–591):
per-slot available energy comes from the solar estimate when the slot start
has one, else from the initial available energy. -/
def legacy_go (battery_capacity available_energy energy_per_slot slot_duration_hours : ℚ)
    (estimates : List (ℚ × ℚ)) : List PriceSlot → ℚ → List SelSlot
  | [], _ => []
  | s :: rest, total =>
    if 0 < min energy_per_slot
        ((match lookupLevel estimates s.start with
          | some lvl => battery_capacity * lvl / 100
          | none => available_energy) - total) then
      legacySel slot_duration_hours s
          (min energy_per_slot
            ((match lookupLevel estimates s.start with
              | some lvl => battery_capacity * lvl / 100
              | none => available_energy) - total))
          (lookupLevel estimates s.start) ::
        legacy_go battery_capacity available_energy energy_per_slot slot_duration_hours
          estimates rest
          (total + min energy_per_slot
            ((match lookupLevel estimates s.start with
              | some lvl => battery_capacity * lvl / 100
              | none => available_energy) - total))
    else
      legacy_go battery_capacity available_energy energy_per_slot slot_duration_hours
        estimates rest total

/-- Greedy energy accumulation for charging (lines 765–779). -/
def charge_go (energy_per_slot needed_energy slot_duration_hours : ℚ) :
    List PriceSlot → ℚ → List SelSlot
  | [], _ => []
  | s :: rest, total =>
    if 0 < min energy_per_slot (needed_energy - total) then
      chargeSel slot_duration_hours s (min energy_per_slot (needed_energy - total)) ::
        charge_go energy_per_slot needed_energy slot_duration_hours rest
          (total + min energy_per_slot (needed_energy - total))
    else charge_go energy_per_slot needed_energy slot_duration_hours rest total

/-- The unclamped merged record for a multi-slot run (lines 1031–1057):
summed energy, revenue, cost and duration, energy-weighted average price,
`slot_count`, battery bookkeeping copied from the run's first slot
(`first = group[0]`, `last = group[-1]`).  `revenue`/`cost` keys are only set
when positive in the source; they are embedded as plain sums (readers default
absent keys to 0, and no claim below inspects key presence for them). -/
def merge_base (group : List SelSlot) (first last : SelSlot) : SelSlot :=
  ⟨first.start, last.stop,
    (if 0 < (group.map SelSlot.energy_kwh).sum then
      (if 0 < (group.map SelSlot.revenue).sum then (group.map SelSlot.revenue).sum
       else (group.map SelSlot.cost).sum) / (group.map SelSlot.energy_kwh).sum
     else (group.map SelSlot.price).sum / group.length),
    (group.map SelSlot.energy_kwh).sum,
    (group.map SelSlot.duration_hours).sum,
    (group.map SelSlot.revenue).sum,
    (group.map SelSlot.cost).sum,
    first.battery_before, none, false, some group.length, none⟩

/-- The reduction factor `available_energy / total_energy` applied by the
partial-discharge clamp (`reduction_ratio` in the source, lines 1075 and
1014–1016). -/
def merge_shrink (group : List SelSlot) (first : SelSlot)
    (min_battery_reserve_percent : ℚ) (battery_capacity_kwh : ℚ) : ℚ :=
  if 0 < (group.map SelSlot.energy_kwh).sum then
    max 0 (first.battery_before.getD 0 -
      battery_capacity_kwh * min_battery_reserve_percent / 100) /
      (group.map SelSlot.energy_kwh).sum
  else 0

/-- The multi-slot branch of `_merge_slot_group` (lines 1031–1093), with
`first = group[0]`, `last = group[-1]`. -/
def merge_multi (group : List SelSlot) (first last : SelSlot)
    (min_battery_reserve_percent : ℚ) (battery_capacity_kwh : ℚ) : SelSlot :=
  match last.battery_after with
  | none => merge_base group first last
  | some battery_after =>
    if battery_capacity_kwh ≠ 0 then
      if battery_after < battery_capacity_kwh * min_battery_reserve_percent / 100 then
        if max 0 (first.battery_before.getD 0 -
            battery_capacity_kwh * min_battery_reserve_percent / 100) <
            (group.map SelSlot.energy_kwh).sum then
          { merge_base group first last with
            energy_kwh := max 0 (first.battery_before.getD 0 -
              battery_capacity_kwh * min_battery_reserve_percent / 100),
            revenue := (group.map SelSlot.revenue).sum * merge_shrink group first
              min_battery_reserve_percent battery_capacity_kwh,
            cost := (group.map SelSlot.cost).sum * merge_shrink group first
              min_battery_reserve_percent battery_capacity_kwh,
            duration_hours := (group.map SelSlot.duration_hours).sum * merge_shrink group first
              min_battery_reserve_percent battery_capacity_kwh,
            battery_after :=
              some (battery_capacity_kwh * min_battery_reserve_percent / 100),
            clamped := true }
        else { merge_base group first last with battery_after := some battery_after }
      else { merge_base group first last with battery_after := some battery_after }
    else { merge_base group first last with battery_after := some battery_after }

/-- `_merge_slot_group`: merge a group of consecutive slots into one record,
clamping to the reserve floor (`partial_discharge` in the source, `clamped`
here) when battery bookkeeping is present.  The source indexes `group[0]` /
`group[-1]` and is never called on an empty group; the empty case returns a
dummy record. -/
def merge_slot_group (group : List SelSlot)
    (min_battery_reserve_percent : ℚ) (battery_capacity_kwh : ℚ) : SelSlot :=
  match group with
  | [] => ⟨0, 0, 0, 0, 0, 0, 0, none, none, false, none, none⟩
  | [s] =>
    if battery_capacity_kwh ≠ 0 ∧ s.battery_after.isSome then
      if s.battery_after.getD 0 <
          battery_capacity_kwh * min_battery_reserve_percent / 100 then
        if max 0 (s.battery_before.getD 0 -
            battery_capacity_kwh * min_battery_reserve_percent / 100) < s.energy_kwh then
          { s with
            energy_kwh := max 0 (s.battery_before.getD 0 -
              battery_capacity_kwh * min_battery_reserve_percent / 100),
            revenue := s.revenue *
              (if 0 < s.energy_kwh then
                max 0 (s.battery_before.getD 0 -
                  battery_capacity_kwh * min_battery_reserve_percent / 100) / s.energy_kwh
              else 0),
            cost := s.cost *
              (if 0 < s.energy_kwh then
                max 0 (s.battery_before.getD 0 -
                  battery_capacity_kwh * min_battery_reserve_percent / 100) / s.energy_kwh
              else 0),
            duration_hours := s.duration_hours *
              (if 0 < s.energy_kwh then
                max 0 (s.battery_before.getD 0 -
                  battery_capacity_kwh * min_battery_reserve_percent / 100) / s.energy_kwh
              else 0),
            battery_after := some (battery_capacity_kwh * min_battery_reserve_percent / 100),
            clamped := true }
        else s
      else s
    else s
  | s :: s2 :: rest =>
    merge_multi (s :: s2 :: rest) s ((s2 :: rest).getLast (by simp))
      min_battery_reserve_percent battery_capacity_kwh

/-- Grouping loop of `_combine_consecutive_slots`: `curRev` is the current
group in reverse (so its head is `current_group[-1]`). -/
def combine_go (min_battery_reserve_percent battery_capacity_kwh : ℚ)
    (curRev : List SelSlot) : List SelSlot → List SelSlot
  | [] => [merge_slot_group curRev.reverse min_battery_reserve_percent battery_capacity_kwh]
  | s :: rest =>
    match curRev with
    | [] => []
    | lastS :: _ =>
      if lastS.stop = s.start then
        combine_go min_battery_reserve_percent battery_capacity_kwh (s :: curRev) rest
      else
        merge_slot_group curRev.reverse min_battery_reserve_percent battery_capacity_kwh ::
          combine_go min_battery_reserve_percent battery_capacity_kwh [s] rest

/-- `_combine_consecutive_slots`: sort by start time, group maximal runs with
`end(slot_i) == start(slot_{i+1})`, and merge each run. -/
def combine_consecutive_slots (slots : List SelSlot)
    (min_battery_reserve_percent : ℚ) (battery_capacity_kwh : ℚ) : List SelSlot :=
  match sortByLe (fun a b => decide (a.start ≤ b.start)) slots with
  | [] => []
  | s :: rest => combine_go min_battery_reserve_percent battery_capacity_kwh [s] rest

/-- The price timeline used by a selector call: today's slots, extended with
tomorrow's when multi-day optimization is enabled and tomorrow data exists. -/
def all_prices_of (raw_prices raw_tomorrow : List PriceSlot) (multiday_enabled : Bool) :
    List PriceSlot :=
  if multiday_enabled ∧ raw_tomorrow ≠ [] then merge_price_data raw_prices raw_tomorrow
  else raw_prices

/-- The number of slots taken on the legacy discharge path (`num_slots`,
lines 556–561). -/
def discharge_num_slots (max_hours : Option ℚ) (len max_discharge_slots : ℕ)
    (slot_duration_hours : ℚ) : ℕ :=
  match max_hours with
  | some mh =>
    if 0 < mh then
      min (min len max_discharge_slots) (⌊mh / slot_duration_hours⌋).toNat
    else min len max_discharge_slots
  | none => min len max_discharge_slots

/-- The selection step of the solar-aware discharge path (lines 512–547):
greedy under `max_hours` when set and positive, else all feasible slots. -/
def discharge_select_solar (slot_duration_hours : ℚ) (max_hours : Option ℚ)
    (price_sorted : List ProjSlot) : List SelSlot :=
  match max_hours with
  | some mh =>
    if 0 < mh then greedy_hours slot_duration_hours mh price_sorted 0
    else price_sorted.map (projToSel slot_duration_hours)
  | none => price_sorted.map (projToSel slot_duration_hours)

/-- The `selected_slots` list built by `select_discharge_slots` before the
merging step, on cache miss; `none` models the early returns that bypass both
the merger and the cache (empty prices, no available energy, non-positive
energy per slot, battery too small without solar estimates, no profitable
slot, no feasible slot).  Expects already-validated capacity/level/rate. -/
def discharge_selected_pre (raw_prices : List PriceSlot)
    (min_sell_price battery_capacity battery_level discharge_rate : ℚ)
    (max_hours : Option ℚ) (raw_tomorrow : List PriceSlot)
    (solar_forecast_data : Option (List (ℚ × ℚ))) (multiday_enabled : Bool) :
    Option (List SelSlot) :=
  if raw_prices = [] then none else
  let all_prices := all_prices_of raw_prices raw_tomorrow multiday_enabled
  let estimates :=
    if solar_forecast_data.isSome ∧ multiday_enabled then
      estimate_solar_impact all_prices solar_forecast_data battery_capacity battery_level
    else []
  let available_energy := battery_capacity * battery_level / 100
  if available_energy ≤ 0 then none else
  let slot_duration_hours := calculate_slot_duration all_prices
  let energy_per_slot := discharge_rate * slot_duration_hours
  if energy_per_slot ≤ 0 then none else
  let max_discharge_slots := (⌊available_energy / energy_per_slot⌋).toNat
  if max_discharge_slots = 0 ∧ estimates = [] then none else
  let profitable := all_prices.filter (fun s => decide (min_sell_price ≤ s.value))
  if profitable = [] then none else
  match solar_forecast_data with
  | some _ =>
    let feasible := project_battery_state profitable available_energy battery_capacity
      discharge_rate slot_duration_hours solar_forecast_data
    if feasible = [] then none else
    let price_sorted := sortByLe (fun a b => decide (b.price ≤ a.price)) feasible
    some (discharge_select_solar slot_duration_hours max_hours price_sorted)
  | none =>
    let sorted_slots := sortByLe (fun a b => decide (b.value ≤ a.value)) profitable
    some (legacy_go battery_capacity available_energy energy_per_slot slot_duration_hours
      estimates (sorted_slots.take (discharge_num_slots max_hours sorted_slots.length
        max_discharge_slots slot_duration_hours)) 0)

/-- Cache-miss body of `select_discharge_slots`: selection followed by the
merger; `none` stands for the early returns that bypass the cache. -/
def select_discharge_compute (raw_prices : List PriceSlot)
    (min_sell_price battery_capacity battery_level discharge_rate : ℚ)
    (max_hours : Option ℚ) (raw_tomorrow : List PriceSlot)
    (solar_forecast_data : Option (List (ℚ × ℚ))) (multiday_enabled : Bool)
    (min_battery_reserve_percent : ℚ) : Option (List SelSlot) :=
  (discharge_selected_pre raw_prices min_sell_price battery_capacity battery_level
      discharge_rate max_hours raw_tomorrow solar_forecast_data multiday_enabled).map
    (fun selected =>
      combine_consecutive_slots selected min_battery_reserve_percent battery_capacity)

/-- Python slicing `l[:n]` with an `int` bound: a negative bound counts from
the end (still a prefix). -/
def pyTake {α : Type} (n : ℤ) (l : List α) : List α :=
  l.take (if n < 0 then ((l.length : ℤ) + n).toNat else n.toNat)

/-- Greatest value of the solar estimates
(`max(solar_battery_estimates.values(), default=battery_level)`). -/
def maxLevels (levels : List (ℚ × ℚ)) (d : ℚ) : ℚ :=
  ((levels.map Prod.snd).max?).getD d

/-- Tail of the charging selection after the needed energy is fixed
(lines 723–779 of the source). -/
def charging_after_solar (max_charge_price charge_rate : ℚ) (max_slots : Option ℤ)
    (all_prices : List PriceSlot) (needed_energy : ℚ) : Option (List SelSlot) :=
  if needed_energy ≤ 0 then none else
  let slot_duration_hours := calculate_slot_duration all_prices
  let energy_per_slot := charge_rate * slot_duration_hours
  if energy_per_slot ≤ 0 then none else
  let slots_needed := ratTrunc ((needed_energy + energy_per_slot - 1 / 1000) / energy_per_slot)
  let economical := all_prices.filter (fun s => decide (s.value ≤ max_charge_price))
  if economical = [] then none else
  let sorted_slots := sortByLe (fun a b => decide (a.value ≤ b.value)) economical
  let num_slots : ℤ := match max_slots with
    | some m => if m ≠ 0 then min (min (sorted_slots.length : ℤ) slots_needed) m
                else min (sorted_slots.length : ℤ) slots_needed
    | none => min (sorted_slots.length : ℤ) slots_needed
  some (charge_go energy_per_slot needed_energy slot_duration_hours
    (pyTake num_slots sorted_slots) 0)

/-- The `selected_slots` list built by `select_charging_slots` before merging,
on cache miss; `none` models the early returns that bypass both the merger
and the cache.  Expects already-validated inputs. -/
def charging_selected_pre (raw_prices : List PriceSlot)
    (max_charge_price battery_capacity battery_level target_level charge_rate : ℚ)
    (max_slots : Option ℤ) (raw_tomorrow : List PriceSlot)
    (solar_forecast_data : Option (List (ℚ × ℚ))) (multiday_enabled : Bool) :
    Option (List SelSlot) :=
  if raw_prices = [] then none else
  let all_prices := all_prices_of raw_prices raw_tomorrow multiday_enabled
  let estimates :=
    if solar_forecast_data.isSome ∧ multiday_enabled then
      estimate_solar_impact all_prices solar_forecast_data battery_capacity battery_level
    else []
  let needed0 := max 0 (battery_capacity * target_level / 100 -
    battery_capacity * battery_level / 100)
  match estimates with
  | _ :: _ =>
    if target_level ≤ maxLevels estimates battery_level then none else
    charging_after_solar max_charge_price charge_rate max_slots all_prices
      (max 0 (needed0 - battery_capacity * (maxLevels estimates battery_level -
        battery_level) / 100))
  | [] =>
    charging_after_solar max_charge_price charge_rate max_slots all_prices needed0

/-- Cache-miss body of `select_charging_slots`: selection followed by the
merger with `min_battery_reserve_percent = 0`. -/
def select_charging_compute (raw_prices : List PriceSlot)
    (max_charge_price battery_capacity battery_level target_level charge_rate : ℚ)
    (max_slots : Option ℤ) (raw_tomorrow : List PriceSlot)
    (solar_forecast_data : Option (List (ℚ × ℚ))) (multiday_enabled : Bool) :
    Option (List SelSlot) :=
  (charging_selected_pre raw_prices max_charge_price battery_capacity battery_level
      target_level charge_rate max_slots raw_tomorrow solar_forecast_data
      multiday_enabled).map
    (fun selected => combine_consecutive_slots selected 0 battery_capacity)

/-- Cache keys: a stable digest of the method name and the scalar positional
arguments (`_get_cache_key`; the md5 of `str(args)` is embedded as the
argument tuple itself).  Large collections enter only through their length. -/
inductive CacheKey where
  | discharge (n : ℕ) (min_sell_price battery_capacity battery_level discharge_rate : ℚ)
      (max_hours : Option ℚ)
  | charging (n : ℕ) (max_charge_price battery_capacity battery_level target_level
      charge_rate : ℚ) (max_slots : Option ℤ)
deriving DecidableEq

/-- One cache entry: key, store timestamp (minutes) and stored result. -/
abbrev CacheEntry := CacheKey × ℚ × List SelSlot

/-- Optimizer state: just the result cache (`self._cache`). -/
structure EnergyOptimizer where
  cache : List CacheEntry
deriving DecidableEq

/-- The cache TTL, in minutes (`self._cache_ttl = timedelta(minutes=5)`). -/
def cache_ttl : ℚ := 5

/-- `_clean_expired_cache`: drop every entry with `now - cached_time >= ttl`. -/
def clean_expired_cache (cache : List CacheEntry) (now : ℚ) : List CacheEntry :=
  cache.filter (fun e => decide (now - e.2.1 < cache_ttl))

/-- Key lookup after the purge (`_get_cached`; with a single `now` per call
the re-check of the found entry's age never fires, since the purge already
removed stale entries). -/
def get_cached (cache : List CacheEntry) (key : CacheKey) : Option (List SelSlot) :=
  (cache.find? (fun e => decide (e.1 = key))).map (fun e => e.2.2)

/-- `_set_cached`: store under the key with the current timestamp (dict
assignment overwrites an existing entry). -/
def set_cached (cache : List CacheEntry) (key : CacheKey) (now : ℚ)
    (result : List SelSlot) : List CacheEntry :=
  cache.filter (fun e => decide (¬ e.1 = key)) ++ [(key, now, result)]

/-- `select_discharge_slots`, with the optimizer state passed explicitly and
`now` the injected clock (minutes).  Validation precedes key construction, so
the key carries clamped values; a cache hit returns the stored result; an
early return (`none` from the compute body) yields `[]` without storing. -/
def select_discharge_slots (o : EnergyOptimizer) (now : ℚ) (raw_prices : List PriceSlot)
    (min_sell_price battery_capacity battery_level : ℚ) (discharge_rate : ℚ)
    (max_hours : Option ℚ) (raw_tomorrow : List PriceSlot)
    (solar_forecast_data : Option (List (ℚ × ℚ))) (multiday_enabled : Bool)
    (min_battery_reserve_percent : ℚ) : List SelSlot × EnergyOptimizer :=
  let v := validate_inputs battery_capacity battery_level discharge_rate
  let key := CacheKey.discharge raw_prices.length min_sell_price v.1 v.2.1 v.2.2 max_hours
  let cache1 := clean_expired_cache o.cache now
  match get_cached cache1 key with
  | some r => (r, ⟨cache1⟩)
  | none =>
    match select_discharge_compute raw_prices min_sell_price v.1 v.2.1 v.2.2 max_hours
        raw_tomorrow solar_forecast_data multiday_enabled min_battery_reserve_percent with
    | none => ([], ⟨cache1⟩)
    | some r => (r, ⟨set_cached cache1 key now r⟩)

/-- `select_charging_slots`, with explicit state and clock, mirroring
`select_discharge_slots` (target level is clamped by the second
`_validate_inputs` call of the source). -/
def select_charging_slots (o : EnergyOptimizer) (now : ℚ) (raw_prices : List PriceSlot)
    (max_charge_price battery_capacity battery_level target_level : ℚ) (charge_rate : ℚ)
    (max_slots : Option ℤ) (raw_tomorrow : List PriceSlot)
    (solar_forecast_data : Option (List (ℚ × ℚ))) (multiday_enabled : Bool) :
    List SelSlot × EnergyOptimizer :=
  let v := validate_inputs battery_capacity battery_level charge_rate
  let w := validate_inputs v.1 target_level 0
  let key := CacheKey.charging raw_prices.length max_charge_price w.1 v.2.1 w.2.1 v.2.2
    max_slots
  let cache1 := clean_expired_cache o.cache now
  match get_cached cache1 key with
  | some r => (r, ⟨cache1⟩)
  | none =>
    match select_charging_compute raw_prices max_charge_price w.1 v.2.1 w.2.1 v.2.2
        max_slots raw_tomorrow solar_forecast_data multiday_enabled with
    | none => ([], ⟨cache1⟩)
    | some r => (r, ⟨set_cached cache1 key now r⟩)

/-- An arbitrage opportunity record (`end` fields are called `stop`). -/
structure Opportunity where
  charge_start : ℚ
  charge_stop : ℚ
  charge_price : ℚ
  discharge_start : ℚ
  discharge_stop : ℚ
  discharge_price : ℚ
  energy_kwh : ℚ
  profit : ℚ
  roi_percent : ℚ
deriving DecidableEq

/-- Number of slots in a candidate charge window
(`max(1, int(battery_capacity / charge_energy_per_slot))`; the division by a
zero `charge_energy_per_slot` raises in the source, and `ratTrunc` of the
rational convention `x / 0 = 0` is used here — theorems below assume a
positive energy per slot). -/
def charge_slots_needed (battery_capacity charge_energy_per_slot : ℚ) : ℕ :=
  (max 1 (ratTrunc (battery_capacity / charge_energy_per_slot))).toNat

/-- The charge window starting at index `ci`. -/
def charge_window (raw_prices : List PriceSlot) (battery_capacity
    charge_energy_per_slot : ℚ) (ci : ℕ) : List PriceSlot :=
  (raw_prices.drop ci).take
    (min (ci + charge_slots_needed battery_capacity charge_energy_per_slot)
      raw_prices.length - ci)

/-- Average price over a list of slots. -/
def avg_price (window : List PriceSlot) : ℚ :=
  (window.map PriceSlot.value).sum / window.length

/-- The opportunity candidate for charge window index `ci` and discharge slot
`dslot` (loop body of `calculate_arbitrage_opportunities`; the `roi_percent`
division by a zero `charge_cost` raises in the source and is the rational
`x / 0 = 0` here). -/
def opportunity_at (raw_prices : List PriceSlot)
    (battery_capacity charge_energy_per_slot : ℚ) (efficiency : ℚ) (ci : ℕ)
    (dslot : PriceSlot) : Opportunity :=
  ⟨(charge_window raw_prices battery_capacity charge_energy_per_slot ci).headI.start,
    ((charge_window raw_prices battery_capacity charge_energy_per_slot ci).getLastD
      ⟨0, 0, 0⟩).stop,
    avg_price (charge_window raw_prices battery_capacity charge_energy_per_slot ci),
    dslot.start, dslot.stop, dslot.value,
    min battery_capacity (charge_energy_per_slot *
      (charge_window raw_prices battery_capacity charge_energy_per_slot ci).length) *
      efficiency,
    min battery_capacity (charge_energy_per_slot *
        (charge_window raw_prices battery_capacity charge_energy_per_slot ci).length) *
        efficiency * dslot.value -
      min battery_capacity (charge_energy_per_slot *
        (charge_window raw_prices battery_capacity charge_energy_per_slot ci).length) *
        avg_price (charge_window raw_prices battery_capacity charge_energy_per_slot ci),
    (min battery_capacity (charge_energy_per_slot *
        (charge_window raw_prices battery_capacity charge_energy_per_slot ci).length) *
        efficiency * dslot.value -
      min battery_capacity (charge_energy_per_slot *
        (charge_window raw_prices battery_capacity charge_energy_per_slot ci).length) *
        avg_price (charge_window raw_prices battery_capacity charge_energy_per_slot ci)) /
      (min battery_capacity (charge_energy_per_slot *
        (charge_window raw_prices battery_capacity charge_energy_per_slot ci).length) *
        avg_price (charge_window raw_prices battery_capacity charge_energy_per_slot ci)) *
      100⟩

/-- `calculate_arbitrage_opportunities`: for every charge-window start index
`ci < n - 2` and every discharge index from `charge_end_idx + 1` on, keep the
pair iff its profit meets the threshold; sort by profit descending. -/
def calculate_arbitrage_opportunities (raw_prices : List PriceSlot)
    (battery_capacity : ℚ) (charge_rate discharge_rate efficiency
    min_profit_threshold : ℚ) : List Opportunity :=
  if raw_prices.length < 3 then [] else
  sortByLe (fun a b => decide (b.profit ≤ a.profit))
    ((List.range (raw_prices.length - 2)).flatMap (fun ci =>
      (List.range'
          (min (ci + charge_slots_needed battery_capacity
            (charge_rate * calculate_slot_duration raw_prices)) raw_prices.length + 1)
          (raw_prices.length -
            (min (ci + charge_slots_needed battery_capacity
              (charge_rate * calculate_slot_duration raw_prices)) raw_prices.length + 1))).filterMap
        (fun di =>
          match raw_prices[di]? with
          | none => none
          | some dslot =>
            if min_profit_threshold ≤
                (opportunity_at raw_prices battery_capacity
                  (charge_rate * calculate_slot_duration raw_prices) efficiency ci
                  dslot).profit then
              some (opportunity_at raw_prices battery_capacity
                (charge_rate * calculate_slot_duration raw_prices) efficiency ci dslot)
            else none)))

/-- The reserve-clamp condition of `_merge_slot_group` for a nonempty group:
battery bookkeeping present, nonzero capacity, final `battery_after` below
the reserve line, and energy above the reserve smaller than the group total. -/
def merge_clamp_cond (g : List SelSlot) (hg : g ≠ [])
    (min_battery_reserve_percent battery_capacity_kwh : ℚ) : Prop :=
  battery_capacity_kwh ≠ 0 ∧ ((g.getLast hg).battery_after).isSome ∧
    (g.getLast hg).battery_after.getD 0 <
      battery_capacity_kwh * min_battery_reserve_percent / 100 ∧
    max 0 ((g.head hg).battery_before.getD 0 -
      battery_capacity_kwh * min_battery_reserve_percent / 100) <
      (g.map SelSlot.energy_kwh).sum

/-- A chronological, non-overlapping price timeline: every slot ends no
later than any later slot starts, and every slot has positive length. -/
def Chrono (l : List PriceSlot) : Prop :=
  l.Pairwise (fun a b => a.stop ≤ b.start) ∧ ∀ s ∈ l, s.start < s.stop

/-! ### Properties of the stable sort -/

theorem mem_insertByLe {α : Type} (le : α → α → Bool) (a x : α) :
    ∀ l : List α, x ∈ insertByLe le a l ↔ x = a ∨ x ∈ l := by
  intro l
  induction l with
  | nil => simp [insertByLe]
  | cons b t ih =>
    by_cases h : le a b
    · simp [insertByLe, h]
    · simp only [insertByLe, h, Bool.false_eq_true, if_false, List.mem_cons, ih]
      tauto

theorem mem_sortByLe {α : Type} (le : α → α → Bool) (x : α) :
    ∀ l : List α, x ∈ sortByLe le l ↔ x ∈ l := by
  intro l
  induction l with
  | nil => simp [sortByLe]
  | cons a t ih => simp [sortByLe, mem_insertByLe, ih]

theorem length_insertByLe {α : Type} (le : α → α → Bool) (a : α) :
    ∀ l : List α, (insertByLe le a l).length = l.length + 1 := by
  intro l
  induction l with
  | nil => simp [insertByLe]
  | cons b t ih =>
    by_cases h : le a b <;> simp [insertByLe, h, ih]

theorem length_sortByLe {α : Type} (le : α → α → Bool) :
    ∀ l : List α, (sortByLe le l).length = l.length := by
  intro l
  induction l with
  | nil => rfl
  | cons a t ih => simp [sortByLe, length_insertByLe, ih]

theorem perm_insertByLe {α : Type} (le : α → α → Bool) (a : α) :
    ∀ l : List α, (insertByLe le a l).Perm (a :: l) := by
  intro l
  induction l with
  | nil => simp [insertByLe]
  | cons b t ih =>
    by_cases h : le a b
    · simp [insertByLe, h]
    · simpa [insertByLe, h] using
        (List.Perm.trans (List.Perm.cons b ih) (List.Perm.swap a b t))

theorem perm_sortByLe {α : Type} (le : α → α → Bool) :
    ∀ l : List α, (sortByLe le l).Perm l := by
  intro l
  induction l with
  | nil => simp [sortByLe]
  | cons a t ih =>
    exact List.Perm.trans (perm_insertByLe le a (sortByLe le t)) (List.Perm.cons a ih)

theorem pairwise_insertByLe {α : Type} (le : α → α → Bool)
    (htrans : ∀ x y z, le x y = true → le y z = true → le x z = true)
    (htot : ∀ x y, le x y = true ∨ le y x = true) (a : α) :
    ∀ l : List α, l.Pairwise (fun x y => le x y = true) →
      (insertByLe le a l).Pairwise (fun x y => le x y = true) := by
  intro l
  induction l with
  | nil => simp [insertByLe]
  | cons b t ih =>
    intro hp
    rcases List.pairwise_cons.mp hp with ⟨hb, ht⟩
    by_cases h : le a b
    · rw [insertByLe, if_pos h]
      refine List.pairwise_cons.mpr ⟨?_, hp⟩
      intro y hy
      rcases List.mem_cons.mp hy with rfl | hy
      · exact h
      · exact htrans a b y h (hb y hy)
    · have hba : le b a = true := (htot a b).resolve_left h
      rw [insertByLe, if_neg h]
      refine List.pairwise_cons.mpr ⟨?_, ih ht⟩
      intro y hy
      rcases (mem_insertByLe le a y t).mp hy with rfl | hy
      · exact hba
      · exact hb y hy

theorem pairwise_sortByLe {α : Type} (le : α → α → Bool)
    (htrans : ∀ x y z, le x y = true → le y z = true → le x z = true)
    (htot : ∀ x y, le x y = true ∨ le y x = true) :
    ∀ l : List α, (sortByLe le l).Pairwise (fun x y => le x y = true) := by
  intro l
  induction l with
  | nil => simp [sortByLe]
  | cons a t ih => exact pairwise_insertByLe le htrans htot a _ ih

theorem insertByLe_of_le_head {α : Type} (le : α → α → Bool) (a : α) (l : List α)
    (h : ∀ b ∈ l.head?, le a b = true) : insertByLe le a l = a :: l := by
  cases l with
  | nil => rfl
  | cons b t => simp [insertByLe, h b rfl]

theorem sortByLe_of_pairwise {α : Type} (le : α → α → Bool) :
    ∀ l : List α, l.Pairwise (fun x y => le x y = true) → sortByLe le l = l := by
  intro l
  induction l with
  | nil => intro _; rfl
  | cons a t ih =>
    intro hp
    rcases List.pairwise_cons.mp hp with ⟨ha, ht⟩
    rw [sortByLe, ih ht]
    refine insertByLe_of_le_head le a t ?_
    intro b hb
    exact ha b (List.mem_of_mem_head? hb)


/-! ### Helper lemmas about the battery state projector -/

theorem project_go_mem (cap rate dur : ℚ) (solar : Option (List (ℚ × ℚ))) :
    ∀ (l : List PriceSlot) (prev : Option PriceSlot) (b : ℚ) (p : ProjSlot),
      p ∈ project_go cap rate dur solar prev l b →
      p.battery_after = p.battery_before - p.energy_kwh ∧ p.energy_kwh = rate * dur := by
  intro l
  induction l with
  | nil => intro prev b p hp; simp [project_go] at hp
  | cons s rest ih =>
    intro prev b p hp
    rw [project_go] at hp
    by_cases h : rate * dur ≤ solar_credit cap prev solar s b
    · rw [if_pos h] at hp
      rcases List.mem_cons.mp hp with rfl | hp
      · exact ⟨by simp, rfl⟩
      · exact ih (some s) _ p hp
    · rw [if_neg h] at hp
      exact ih (some s) _ p hp

/-! ### Claim theorems -/

/-- C4: every slot emitted by the battery state projector
(`_project_battery_state`) satisfies `battery_after = battery_before -
energy_kwh`, and its `energy_kwh` equals the discharge rate times the slot
duration. -/
theorem C4_projector_energy_conservation
    (slots : List PriceSlot) (initial_battery_kwh battery_capacity_kwh
    discharge_rate_kw slot_duration_hours : ℚ)
    (solar_forecast_data : Option (List (ℚ × ℚ))) (p : ProjSlot)
    (hp : p ∈ project_battery_state slots initial_battery_kwh battery_capacity_kwh
      discharge_rate_kw slot_duration_hours solar_forecast_data) :
    p.battery_after = p.battery_before - p.energy_kwh ∧
      p.energy_kwh = discharge_rate_kw * slot_duration_hours :=
  project_go_mem battery_capacity_kwh discharge_rate_kw slot_duration_hours
    solar_forecast_data _ none initial_battery_kwh p hp

/-- Witness for C4 at a concrete input: one slot, battery 10 kWh, rate 5 kW,
duration 1 h. -/
theorem C4_projector_energy_conservation_witness :
    (⟨0, 1, 1, 1, 5, 10, 5⟩ : ProjSlot).battery_after =
        (⟨0, 1, 1, 1, 5, 10, 5⟩ : ProjSlot).battery_before -
          (⟨0, 1, 1, 1, 5, 10, 5⟩ : ProjSlot).energy_kwh ∧
      (⟨0, 1, 1, 1, 5, 10, 5⟩ : ProjSlot).energy_kwh = 5 * 1 :=
  C4_projector_energy_conservation [⟨0, 1, 1⟩] 10 10 5 1 none ⟨0, 1, 1, 1, 5, 10, 5⟩
    (by norm_num [project_battery_state, sortByLe, insertByLe, project_go, solar_credit])

/-- C5 (amended): a merged period's `energy_kwh` equals the sum of its
constituents' energies whenever the reserve clamp does not fire; when it
fires, it equals the energy available above the reserve line,
`max 0 (battery_before - reserve)`, instead. -/
theorem C5_merge_energy_sum (g : List SelSlot) (hg : g ≠ [])
    (min_battery_reserve_percent battery_capacity_kwh : ℚ) :
    (¬ merge_clamp_cond g hg min_battery_reserve_percent battery_capacity_kwh →
      (merge_slot_group g min_battery_reserve_percent battery_capacity_kwh).energy_kwh =
        (g.map SelSlot.energy_kwh).sum) ∧
    (merge_clamp_cond g hg min_battery_reserve_percent battery_capacity_kwh →
      (merge_slot_group g min_battery_reserve_percent battery_capacity_kwh).energy_kwh =
        max 0 ((g.head hg).battery_before.getD 0 -
          battery_capacity_kwh * min_battery_reserve_percent / 100)) := by
  match g, hg with
  | [s], _ =>
    constructor
    · intro hnc
      rw [merge_slot_group]
      split
      · rename_i h1
        split
        · rename_i h2
          split
          · rename_i h3
            exact absurd ⟨h1.1, h1.2, by simpa using h2, by simpa using h3⟩ hnc
          · simp
        · simp
      · simp
    · intro hc
      rw [merge_slot_group, if_pos ⟨hc.1, hc.2.1⟩, if_pos (by simpa using hc.2.2.1),
        if_pos (by simpa using hc.2.2.2)]
      simp
  | s :: s2 :: rest, _ =>
    have hlast : (s :: s2 :: rest).getLast (by simp) = (s2 :: rest).getLast (by simp) := by
      simp [List.getLast_cons]
    constructor
    · intro hnc
      rw [merge_slot_group, merge_multi]
      split
      · rename_i heq
        simp [merge_base]
      · rename_i ba heq
        split
        · rename_i h1
          split
          · rename_i h2
            split
            · rename_i h3
              refine absurd ⟨h1, ?_, ?_, by simpa using h3⟩ hnc
              · rw [hlast, heq]; rfl
              · rw [hlast, heq]; simpa using h2
            · simp [merge_base]
          · simp [merge_base]
        · simp [merge_base]
    · intro hc
      rcases hc with ⟨h1, h2, h3, h4⟩
      rw [hlast] at h2 h3
      rw [merge_slot_group, merge_multi]
      split
      · rename_i heq
        rw [heq] at h2
        simp at h2
      · rename_i ba heq
        rw [heq] at h3
        simp only [Option.getD_some] at h3
        rw [if_pos h1, if_pos h3, if_pos (by simpa using h4)]
        simp

/-- Witness for C5 at a concrete two-slot group whose reserve clamp fires:
battery 3 → 1 kWh over a 2 kWh run, 10 kWh capacity, 25 % reserve, so the
merged energy is `max 0 (3 - 2.5) = 0.5` kWh. -/
theorem C5_merge_energy_sum_witness :
    (merge_slot_group
      [⟨0, 1, 7/20, 1, 1, 7/20, 0, some 3, some 2, false, none, none⟩,
       ⟨1, 2, 3/10, 1, 1, 3/10, 0, some 2, some 1, false, none, none⟩] 25 10).energy_kwh =
      1/2 := by
  have h := (C5_merge_energy_sum
    [⟨0, 1, 7/20, 1, 1, 7/20, 0, some 3, some 2, false, none, none⟩,
     ⟨1, 2, 3/10, 1, 1, 3/10, 0, some 2, some 1, false, none, none⟩]
    (by simp) 25 10).2
  rw [h]
  · norm_num
  · refine ⟨by norm_num, ?_, ?_, ?_⟩
    · simp [List.getLast]
    · simp [List.getLast]
      norm_num
    · simp
      norm_num

/-- Counterexample to C5 as stated: on the same clamped group the merged
`energy_kwh` (0.5 kWh) differs from the sum of the constituents' energies
(2 kWh) by far more than any floating-point tolerance. -/
theorem C5_counterexample :
    (merge_slot_group
      [⟨0, 1, 7/20, 1, 1, 7/20, 0, some 3, some 2, false, none, none⟩,
       ⟨1, 2, 3/10, 1, 1, 3/10, 0, some 2, some 1, false, none, none⟩] 25 10).energy_kwh ≠
      (([⟨0, 1, 7/20, 1, 1, 7/20, 0, some 3, some 2, false, none, none⟩,
         ⟨1, 2, 3/10, 1, 1, 3/10, 0, some 2, some 1, false, none, none⟩] :
        List SelSlot).map SelSlot.energy_kwh).sum := by
  norm_num [merge_slot_group, merge_multi, merge_base, merge_shrink, List.getLast]

/-! ### Helper lemmas about the greedy selection loops -/

theorem legacy_go_mem (cap avail e dur : ℚ) (est : List (ℚ × ℚ)) :
    ∀ (l : List PriceSlot) (tot : ℚ) (p : SelSlot),
      p ∈ legacy_go cap avail e dur est l tot → ∃ s ∈ l, p.price = s.value := by
  intro l
  induction l with
  | nil => intro tot p hp; simp [legacy_go] at hp
  | cons s rest ih =>
    intro tot p hp
    rw [legacy_go] at hp
    split at hp
    · rcases List.mem_cons.mp hp with rfl | hp
      · exact ⟨s, List.mem_cons_self .., rfl⟩
      · rcases ih _ p hp with ⟨s', hs', hps'⟩
        exact ⟨s', List.mem_cons_of_mem _ hs', hps'⟩
    · rcases ih _ p hp with ⟨s', hs', hps'⟩
      exact ⟨s', List.mem_cons_of_mem _ hs', hps'⟩

theorem legacy_go_pairwise (cap avail e dur : ℚ) (est : List (ℚ × ℚ)) :
    ∀ (l : List PriceSlot) (tot : ℚ),
      l.Pairwise (fun a b => b.value ≤ a.value) →
      (legacy_go cap avail e dur est l tot).Pairwise (fun a b => b.price ≤ a.price) := by
  intro l
  induction l with
  | nil => intro tot _; simp [legacy_go]
  | cons s rest ih =>
    intro tot hp
    rcases List.pairwise_cons.mp hp with ⟨hs, hrest⟩
    rw [legacy_go]
    split
    · refine List.pairwise_cons.mpr ⟨?_, ih _ hrest⟩
      intro y hy
      rcases legacy_go_mem cap avail e dur est rest _ y hy with ⟨s', hs', hys'⟩
      simpa [legacySel, hys'] using hs s' hs'
    · exact ih _ hrest

theorem charge_go_mem (e needed dur : ℚ) :
    ∀ (l : List PriceSlot) (tot : ℚ) (p : SelSlot),
      p ∈ charge_go e needed dur l tot → ∃ s ∈ l, p.price = s.value := by
  intro l
  induction l with
  | nil => intro tot p hp; simp [charge_go] at hp
  | cons s rest ih =>
    intro tot p hp
    rw [charge_go] at hp
    split at hp
    · rcases List.mem_cons.mp hp with rfl | hp
      · exact ⟨s, List.mem_cons_self .., rfl⟩
      · rcases ih _ p hp with ⟨s', hs', hps'⟩
        exact ⟨s', List.mem_cons_of_mem _ hs', hps'⟩
    · rcases ih _ p hp with ⟨s', hs', hps'⟩
      exact ⟨s', List.mem_cons_of_mem _ hs', hps'⟩

theorem charge_go_pairwise (e needed dur : ℚ) :
    ∀ (l : List PriceSlot) (tot : ℚ),
      l.Pairwise (fun a b => a.value ≤ b.value) →
      (charge_go e needed dur l tot).Pairwise (fun a b => a.price ≤ b.price) := by
  intro l
  induction l with
  | nil => intro tot _; simp [charge_go]
  | cons s rest ih =>
    intro tot hp
    rcases List.pairwise_cons.mp hp with ⟨hs, hrest⟩
    rw [charge_go]
    split
    · refine List.pairwise_cons.mpr ⟨?_, ih _ hrest⟩
      intro y hy
      rcases charge_go_mem e needed dur rest _ y hy with ⟨s', hs', hys'⟩
      simpa [chargeSel, hys'] using hs s' hs'
    · exact ih _ hrest

/-! ### Helper lemmas about the merger -/

theorem merge_slot_group_start (res cap : ℚ) :
    ∀ (g : List SelSlot) (hg : g ≠ []),
      (merge_slot_group g res cap).start = (g.head hg).start := by
  intro g hg
  match g, hg with
  | [s], _ =>
    rw [merge_slot_group]
    split
    · split
      · split
        · simp
        · simp
      · simp
    · simp
  | s :: s2 :: rest, _ =>
    rw [merge_slot_group, merge_multi]
    split
    · simp [merge_base]
    · split
      · split
        · split
          · simp [merge_base]
          · simp [merge_base]
        · simp [merge_base]
      · simp [merge_base]

theorem combine_go_sorted (res cap : ℚ) :
    ∀ (rest : List SelSlot) (curRev : List SelSlot), curRev ≠ [] →
      (curRev.reverse ++ rest).Pairwise (fun a b => a.start ≤ b.start) →
      ((combine_go res cap curRev rest).Pairwise (fun a b => a.start ≤ b.start) ∧
        ∀ p ∈ combine_go res cap curRev rest,
          ∃ x ∈ curRev.reverse ++ rest, p.start = x.start) := by
  intro rest
  induction rest with
  | nil =>
    intro curRev hne hp
    refine ⟨List.pairwise_singleton .. , ?_⟩
    intro p hp'
    rcases List.mem_singleton.mp (by simpa [combine_go] using hp') with rfl
    refine ⟨(curRev.reverse.head (by simpa using hne)), ?_, ?_⟩
    · simp [List.head_mem]
    · exact merge_slot_group_start res cap curRev.reverse (by simpa using hne)
  | cons s r ih =>
    intro curRev hne hp
    match curRev, hne with
    | lastS :: curTail, _ =>
      rw [combine_go]
      by_cases hadj : lastS.stop = s.start
      · rw [if_pos hadj]
        have hp' : ((s :: lastS :: curTail).reverse ++ r).Pairwise
            (fun a b => a.start ≤ b.start) := by
          simpa using hp
        rcases ih (s :: lastS :: curTail) (by simp) hp' with ⟨h1, h2⟩
        refine ⟨h1, ?_⟩
        intro p hpmem
        rcases h2 p hpmem with ⟨x, hx, hpx⟩
        refine ⟨x, ?_, hpx⟩
        simp only [List.reverse_cons, List.append_assoc] at hx ⊢
        simpa using hx
      · rw [if_neg hadj]
        have hsplit := (List.pairwise_append.mp hp)
        have hpr : ([s].reverse ++ r).Pairwise (fun a b => a.start ≤ b.start) := by
          simpa using hsplit.2.1
        rcases ih [s] (by simp) hpr with ⟨h1, h2⟩
        refine ⟨List.pairwise_cons.mpr ⟨?_, h1⟩, ?_⟩
        · intro y hy
          rcases h2 y hy with ⟨x, hx, hyx⟩
          have hhead : (merge_slot_group ((lastS :: curTail).reverse) res cap).start =
              (((lastS :: curTail).reverse).head (by simp)).start :=
            merge_slot_group_start res cap _ (by simp)
          rw [hhead, hyx]
          exact hsplit.2.2 _ (List.head_mem _) x (by simpa using hx)
        · intro p hpmem
          rcases List.mem_cons.mp hpmem with rfl | hpmem
          · refine ⟨((lastS :: curTail).reverse).head (by simp), ?_,
              merge_slot_group_start res cap _ (by simp)⟩
            exact List.mem_append_left _ (List.head_mem _)
          · rcases h2 p hpmem with ⟨x, hx, hpx⟩
            have hx' : x ∈ s :: r := by simpa using hx
            exact ⟨x, List.mem_append_right _ hx', hpx⟩

theorem combine_consecutive_slots_sorted (slots : List SelSlot) (res cap : ℚ) :
    (combine_consecutive_slots slots res cap).Pairwise (fun a b => a.start ≤ b.start) := by
  rw [combine_consecutive_slots]
  have hsorted : (sortByLe (fun a b => decide (a.start ≤ b.start)) slots).Pairwise
      (fun a b : SelSlot => a.start ≤ b.start) := by
    have := pairwise_sortByLe (fun a b : SelSlot => decide (a.start ≤ b.start))
      (fun x y z hxy hyz => by
        simp only [decide_eq_true_eq] at hxy hyz ⊢; exact le_trans hxy hyz)
      (fun x y => by
        simp only [decide_eq_true_eq]; exact le_total x.start y.start) slots
    simpa using this
  split
  · simp
  · rename_i s rest heq
    rw [heq] at hsorted
    exact (combine_go_sorted res cap rest [s] (by simp) (by simpa using hsorted)).1

theorem pairwise_sortByLe_desc_value (l : List PriceSlot) :
    (sortByLe (fun a b => decide (b.value ≤ a.value)) l).Pairwise
      (fun a b : PriceSlot => b.value ≤ a.value) := by
  have := pairwise_sortByLe (fun a b : PriceSlot => decide (b.value ≤ a.value))
    (fun x y z hxy hyz => by
      simp only [decide_eq_true_eq] at hxy hyz ⊢; exact le_trans hyz hxy)
    (fun x y => by simp only [decide_eq_true_eq]; exact le_total y.value x.value) l
  simpa using this

theorem pairwise_sortByLe_asc_value (l : List PriceSlot) :
    (sortByLe (fun a b => decide (a.value ≤ b.value)) l).Pairwise
      (fun a b : PriceSlot => a.value ≤ b.value) := by
  have := pairwise_sortByLe (fun a b : PriceSlot => decide (a.value ≤ b.value))
    (fun x y z hxy hyz => by
      simp only [decide_eq_true_eq] at hxy hyz ⊢; exact le_trans hxy hyz)
    (fun x y => by simp only [decide_eq_true_eq]; exact le_total x.value y.value) l
  simpa using this

theorem discharge_pre_legacy_pairwise (raw : List PriceSlot) (minp cap lvl rate : ℚ)
    (mh : Option ℚ) (tom : List PriceSlot) (multi : Bool) (sel : List SelSlot)
    (h : discharge_selected_pre raw minp cap lvl rate mh tom none multi = some sel) :
    sel.Pairwise (fun a b => b.price ≤ a.price) := by
  rw [discharge_selected_pre] at h
  dsimp only at h
  repeat' split at h
  all_goals first
    | (rcases Option.some_injective _ h with rfl
       exact legacy_go_pairwise _ _ _ _ _ _ _
         (List.Pairwise.sublist (List.take_sublist _ _) (pairwise_sortByLe_desc_value _)))
    | exact absurd h (by simp)

theorem charging_after_solar_pairwise (maxp rate : ℚ) (ms : Option ℤ)
    (all : List PriceSlot) (needed : ℚ) (sel : List SelSlot)
    (h : charging_after_solar maxp rate ms all needed = some sel) :
    sel.Pairwise (fun a b => a.price ≤ b.price) := by
  rw [charging_after_solar] at h
  dsimp only at h
  repeat' split at h
  all_goals first
    | (rcases Option.some_injective _ h with rfl
       exact charge_go_pairwise _ _ _ _ _
         (List.Pairwise.sublist (List.take_sublist _ _) (pairwise_sortByLe_asc_value _)))
    | exact absurd h (by simp)

theorem charging_pre_pairwise (raw : List PriceSlot) (maxp cap lvl tgt rate : ℚ)
    (ms : Option ℤ) (tom : List PriceSlot) (solar : Option (List (ℚ × ℚ))) (multi : Bool)
    (sel : List SelSlot)
    (h : charging_selected_pre raw maxp cap lvl tgt rate ms tom solar multi = some sel) :
    sel.Pairwise (fun a b => a.price ≤ b.price) := by
  rw [charging_selected_pre] at h
  dsimp only at h
  repeat' split at h
  all_goals first
    | exact charging_after_solar_pairwise _ _ _ _ _ _ h
    | exact absurd h (by simp)

/-- C3 (amended): the lists the selectors rank and consume are price-sorted —
descending for discharge without a solar forecast, ascending for charging —
but the returned lists are the merged periods in chronological order (sorted
by start time), not in price order; the counterexample below shows a returned
discharge list that is not price-descending. -/
theorem C3_ordering_amended :
    (∀ (raw : List PriceSlot) (minp cap lvl rate : ℚ) (mh : Option ℚ)
        (tom : List PriceSlot) (multi : Bool) (sel : List SelSlot),
        discharge_selected_pre raw minp cap lvl rate mh tom none multi = some sel →
        sel.Pairwise (fun a b => b.price ≤ a.price)) ∧
    (∀ (raw : List PriceSlot) (maxp cap lvl tgt rate : ℚ) (ms : Option ℤ)
        (tom : List PriceSlot) (solar : Option (List (ℚ × ℚ))) (multi : Bool)
        (sel : List SelSlot),
        charging_selected_pre raw maxp cap lvl tgt rate ms tom solar multi = some sel →
        sel.Pairwise (fun a b => a.price ≤ b.price)) ∧
    (∀ (now : ℚ) (raw : List PriceSlot) (minp cap lvl rate : ℚ) (mh : Option ℚ)
        (tom : List PriceSlot) (solar : Option (List (ℚ × ℚ))) (multi : Bool) (res : ℚ),
        ((select_discharge_slots ⟨[]⟩ now raw minp cap lvl rate mh tom solar multi res).1).Pairwise
          (fun a b => a.start ≤ b.start)) ∧
    (∀ (now : ℚ) (raw : List PriceSlot) (maxp cap lvl tgt rate : ℚ) (ms : Option ℤ)
        (tom : List PriceSlot) (solar : Option (List (ℚ × ℚ))) (multi : Bool),
        ((select_charging_slots ⟨[]⟩ now raw maxp cap lvl tgt rate ms tom solar multi).1).Pairwise
          (fun a b => a.start ≤ b.start)) := by
  refine ⟨discharge_pre_legacy_pairwise, charging_pre_pairwise, ?_, ?_⟩
  · intro now raw minp cap lvl rate mh tom solar multi res
    rw [select_discharge_slots]
    simp only [clean_expired_cache, get_cached, List.filter_nil, List.find?_nil,
      Option.map_none']
    rcases hc : select_discharge_compute raw minp (validate_inputs cap lvl rate).1
        (validate_inputs cap lvl rate).2.1 (validate_inputs cap lvl rate).2.2 mh tom solar
        multi res with _ | r
    · simp [hc]
    · rw [select_discharge_compute] at hc
      rcases hpre : discharge_selected_pre raw minp (validate_inputs cap lvl rate).1
          (validate_inputs cap lvl rate).2.1 (validate_inputs cap lvl rate).2.2 mh tom solar
          multi with _ | sel
      · rw [hpre] at hc; exact absurd hc (by simp)
      · rw [hpre] at hc
        rcases Option.some_injective _ (by simpa using hc) with rfl
        simp only [select_discharge_compute, hpre, Option.map_some']
        exact combine_consecutive_slots_sorted _ _ _
  · intro now raw maxp cap lvl tgt rate ms tom solar multi
    rw [select_charging_slots]
    simp only [clean_expired_cache, get_cached, List.filter_nil, List.find?_nil,
      Option.map_none']
    rcases hc : select_charging_compute raw maxp
        (validate_inputs (validate_inputs cap lvl rate).1 tgt 0).1
        (validate_inputs cap lvl rate).2.1
        (validate_inputs (validate_inputs cap lvl rate).1 tgt 0).2.1
        (validate_inputs cap lvl rate).2.2 ms tom solar multi with _ | r
    · simp [hc]
    · rw [select_charging_compute] at hc
      rcases hpre : charging_selected_pre raw maxp
          (validate_inputs (validate_inputs cap lvl rate).1 tgt 0).1
          (validate_inputs cap lvl rate).2.1
          (validate_inputs (validate_inputs cap lvl rate).1 tgt 0).2.1
          (validate_inputs cap lvl rate).2.2 ms tom solar multi with _ | sel
      · rw [hpre] at hc; exact absurd hc (by simp)
      · rw [hpre] at hc
        rcases Option.some_injective _ (by simpa using hc) with rfl
        simp only [select_charging_compute, hpre, Option.map_some']
        exact combine_consecutive_slots_sorted _ _ _

/-- Counterexample to C3 as stated: with no solar forecast, three slots at
prices 0.4 / 0.1 / 0.6 and plenty of battery, the two profitable slots are
not adjacent, so the merger returns them in chronological order
(0.4 before 0.6) — not sorted by price descending. -/
theorem C3_counterexample :
    ¬ ((select_discharge_slots ⟨[]⟩ 0
        [⟨0, 1, 4/10⟩, ⟨1, 2, 1/10⟩, ⟨2, 3, 6/10⟩]
        (3/10) 10 100 5 none [] none false 25).1.Pairwise
      (fun a b => b.price ≤ a.price)) := by
  have h : (select_discharge_slots ⟨[]⟩ 0
      [⟨0, 1, 4/10⟩, ⟨1, 2, 1/10⟩, ⟨2, 3, 6/10⟩]
      (3/10) 10 100 5 none [] none false 25).1 =
      [⟨0, 1, 2/5, 5, 1, 2, 0, none, none, false, none, none⟩,
       ⟨2, 3, 3/5, 5, 1, 3, 0, none, none, false, none, none⟩] := by
    norm_num [select_discharge_slots, validate_inputs, clean_expired_cache, get_cached,
      select_discharge_compute, discharge_selected_pre, discharge_num_slots, discharge_select_solar, all_prices_of, estimate_solar_impact,
      calculate_slot_duration, sortByLe, insertByLe, legacy_go, lookupLevel, legacySel,
      combine_consecutive_slots, combine_go, merge_slot_group, set_cached, List.filter,
      List.cons_ne_nil, Option.map_some', Option.map_none']
  rw [h]
  intro hp
  rcases List.pairwise_cons.mp hp with ⟨hx, _⟩
  have := hx _ (List.mem_cons_self ..)
  norm_num at this

/-- Witness for C3 (amended) at a concrete input: the returned discharge list
of the counterexample's call is chronologically sorted. -/
theorem C3_ordering_amended_witness :
    ((select_discharge_slots ⟨[]⟩ 0
        [⟨0, 1, 4/10⟩, ⟨1, 2, 1/10⟩, ⟨2, 3, 6/10⟩]
        (3/10) 10 100 5 none [] none false 25).1).Pairwise
      (fun a b => a.start ≤ b.start) :=
  C3_ordering_amended.2.2.1 0 [⟨0, 1, 4/10⟩, ⟨1, 2, 1/10⟩, ⟨2, 3, 6/10⟩]
    (3/10) 10 100 5 none [] none false 25

/-! ### Helper lemmas about the result cache -/

theorem find?_append_of_none {α : Type} (p : α → Bool) :
    ∀ (l1 l2 : List α), l1.find? p = none → (l1 ++ l2).find? p = l2.find? p := by
  intro l1 l2
  induction l1 with
  | nil => intro _; simp
  | cons a t ih =>
    intro h
    rw [List.find?_cons] at h
    rcases hpa : p a with _ | _
    · rw [List.cons_append, List.find?_cons, hpa]
      exact ih (by rwa [hpa] at h)
    · rw [hpa] at h; exact absurd h (by simp)

theorem get_cached_clean_none (c : List CacheEntry) (k : CacheKey) (t : ℚ)
    (h : get_cached c k = none) : get_cached (clean_expired_cache c t) k = none := by
  rw [get_cached, Option.map_eq_none'] at h ⊢
  rw [List.find?_eq_none] at h ⊢
  intro e he
  exact h e (List.mem_of_mem_filter he)

theorem get_cached_set_fresh (c : List CacheEntry) (k : CacheKey) (t1 t2 r)
    (httl : t2 - t1 < cache_ttl) :
    get_cached (clean_expired_cache (set_cached c k t1 r) t2) k = some r := by
  rw [set_cached, clean_expired_cache, List.filter_append, get_cached]
  rw [find?_append_of_none]
  · simp [httl]
  · rw [List.find?_eq_none]
    intro e he
    have he' := List.mem_of_mem_filter (List.mem_of_mem_filter he)
    have : ¬ e.1 = k := by
      have := List.of_mem_filter (List.mem_of_mem_filter he)
      simpa using this
    simpa using this

/-- C8: whenever the computed energy per slot — the clamped rate times the
slot duration derived from the merged price timeline — is zero or less, both
selectors return an empty list (on a fresh optimizer, so the guard is
actually reached rather than a cached value returned). -/
theorem C8_zero_energy_per_slot (now : ℚ) (raw : List PriceSlot)
    (minp cap lvl rate maxp tgt res : ℚ) (mh : Option ℚ) (ms : Option ℤ)
    (tom : List PriceSlot) (solar : Option (List (ℚ × ℚ))) (multi : Bool)
    (hd : (validate_inputs cap lvl rate).2.2 *
      calculate_slot_duration (all_prices_of raw tom multi) ≤ 0) :
    (select_discharge_slots ⟨[]⟩ now raw minp cap lvl rate mh tom solar multi res).1 = [] ∧
    (select_charging_slots ⟨[]⟩ now raw maxp cap lvl tgt rate ms tom solar multi).1 = [] := by
  have hpre : ∀ cap' lvl' : ℚ, discharge_selected_pre raw minp cap' lvl'
      (validate_inputs cap lvl rate).2.2 mh tom solar multi = none := by
    intro cap' lvl'
    rw [discharge_selected_pre]
    dsimp only
    by_cases h0 : raw = []
    · rw [if_pos h0]
    · rw [if_neg h0]
      by_cases h1 : cap' * lvl' / 100 ≤ 0
      · rw [if_pos h1]
      · rw [if_neg h1, if_pos hd]
  have hch : ∀ needed : ℚ, charging_after_solar maxp
      (validate_inputs cap lvl rate).2.2 ms (all_prices_of raw tom multi) needed = none := by
    intro needed
    rw [charging_after_solar]
    dsimp only
    by_cases h1 : needed ≤ 0
    · rw [if_pos h1]
    · rw [if_neg h1, if_pos hd]
  have hchpre : ∀ cap' lvl' tgt' : ℚ, charging_selected_pre raw maxp cap' lvl' tgt'
      (validate_inputs cap lvl rate).2.2 ms tom solar multi = none := by
    intro cap' lvl' tgt'
    rw [charging_selected_pre]
    dsimp only
    repeat' split
    all_goals first | rfl | exact hch _
  constructor
  · rw [select_discharge_slots]
    simp only [clean_expired_cache, get_cached, List.filter_nil, List.find?_nil,
      Option.map_none', select_discharge_compute, hpre, Option.map_none']
  · rw [select_charging_slots]
    simp only [clean_expired_cache, get_cached, List.filter_nil, List.find?_nil,
      Option.map_none', select_charging_compute, hchpre, Option.map_none']

/-- Witness for C8: a zero discharge/charge rate makes the energy per slot
zero, and both selectors return `[]`. -/
theorem C8_zero_energy_per_slot_witness :
    (select_discharge_slots ⟨[]⟩ 0 [⟨0, 1, 1/2⟩, ⟨1, 2, 3/5⟩]
        (3/10) 10 80 0 none [] none false 25).1 = [] ∧
    (select_charging_slots ⟨[]⟩ 0 [⟨0, 1, 1/2⟩, ⟨1, 2, 3/5⟩]
        (2/10) 10 80 80 0 none [] none false).1 = [] :=
  C8_zero_energy_per_slot 0 [⟨0, 1, 1/2⟩, ⟨1, 2, 3/5⟩] (3/10) 10 80 0 (2/10) 80 25
    none none [] none false
    (by norm_num [validate_inputs, all_prices_of, calculate_slot_duration])

/-- C9 (amended): two identical `select_discharge_slots` calls less than the
TTL apart return the same result when the first is a cache miss; moreover,
whenever the first call's computation reached the caching step (the compute
body produced a result rather than an early return), the stored entry is
still present — unexpired — at the second call's post-purge lookup, so the
second call is served the stored result without recomputing.  Early-return
empty results are not cached and are recomputed (identically). -/
theorem C9_cache_roundtrip (o : EnergyOptimizer) (t1 t2 : ℚ)
    (raw : List PriceSlot) (minp cap lvl rate res : ℚ) (mh : Option ℚ)
    (tom : List PriceSlot) (solar : Option (List (ℚ × ℚ))) (multi : Bool)
    (hmiss : get_cached (clean_expired_cache o.cache t1)
      (CacheKey.discharge raw.length minp (validate_inputs cap lvl rate).1
        (validate_inputs cap lvl rate).2.1 (validate_inputs cap lvl rate).2.2 mh) = none)
    (httl : t2 - t1 < cache_ttl) :
    (select_discharge_slots
        (select_discharge_slots o t1 raw minp cap lvl rate mh tom solar multi res).2
        t2 raw minp cap lvl rate mh tom solar multi res).1 =
      (select_discharge_slots o t1 raw minp cap lvl rate mh tom solar multi res).1 ∧
    (∀ r, select_discharge_compute raw minp (validate_inputs cap lvl rate).1
        (validate_inputs cap lvl rate).2.1 (validate_inputs cap lvl rate).2.2 mh tom solar
        multi res = some r →
      get_cached (clean_expired_cache
          (select_discharge_slots o t1 raw minp cap lvl rate mh tom solar multi
            res).2.cache t2)
        (CacheKey.discharge raw.length minp (validate_inputs cap lvl rate).1
          (validate_inputs cap lvl rate).2.1 (validate_inputs cap lvl rate).2.2 mh) =
        some (select_discharge_slots o t1 raw minp cap lvl rate mh tom solar multi
          res).1) := by
  rcases hc : select_discharge_compute raw minp (validate_inputs cap lvl rate).1
      (validate_inputs cap lvl rate).2.1 (validate_inputs cap lvl rate).2.2 mh tom solar
      multi res with _ | r
  · have h1 : select_discharge_slots o t1 raw minp cap lvl rate mh tom solar multi res =
        ([], ⟨clean_expired_cache o.cache t1⟩) := by
      rw [select_discharge_slots]
      rw [hmiss, hc]
    have hmiss2 : get_cached (clean_expired_cache (clean_expired_cache o.cache t1) t2)
        (CacheKey.discharge raw.length minp (validate_inputs cap lvl rate).1
          (validate_inputs cap lvl rate).2.1 (validate_inputs cap lvl rate).2.2 mh) =
        none := get_cached_clean_none _ _ _ hmiss
    constructor
    · rw [h1]
      rw [select_discharge_slots]
      rw [hmiss2, hc]
    · intro r hr
      exact absurd hr (by simp)
  · have h1 : select_discharge_slots o t1 raw minp cap lvl rate mh tom solar multi res =
        (r, ⟨set_cached (clean_expired_cache o.cache t1)
          (CacheKey.discharge raw.length minp (validate_inputs cap lvl rate).1
            (validate_inputs cap lvl rate).2.1 (validate_inputs cap lvl rate).2.2 mh)
          t1 r⟩) := by
      rw [select_discharge_slots]
      rw [hmiss, hc]
    have hhit := get_cached_set_fresh (clean_expired_cache o.cache t1)
      (CacheKey.discharge raw.length minp (validate_inputs cap lvl rate).1
        (validate_inputs cap lvl rate).2.1 (validate_inputs cap lvl rate).2.2 mh)
      t1 t2 r httl
    constructor
    · rw [h1]
      rw [select_discharge_slots]
      rw [hhit]
    · intro r' _
      rw [h1]
      exact hhit

/-- Witness for C9 (amended) at a concrete input: two identical calls at
`t = 0` and `t = 3` minutes on a fresh optimizer return the same list, and
the entry stored by the first call is found by the second call's lookup. -/
theorem C9_cache_roundtrip_witness :
    (select_discharge_slots
        (select_discharge_slots ⟨[]⟩ 0 [⟨0, 1, 1/2⟩, ⟨1, 2, 3/5⟩]
          (3/10) 10 80 5 none [] none false 25).2
        3 [⟨0, 1, 1/2⟩, ⟨1, 2, 3/5⟩] (3/10) 10 80 5 none [] none false 25).1 =
      (select_discharge_slots ⟨[]⟩ 0 [⟨0, 1, 1/2⟩, ⟨1, 2, 3/5⟩]
        (3/10) 10 80 5 none [] none false 25).1 := by
  refine (C9_cache_roundtrip ⟨[]⟩ 0 3 [⟨0, 1, 1/2⟩, ⟨1, 2, 3/5⟩]
    (3/10) 10 80 5 25 none [] none false ?_ ?_).1
  · rfl
  · norm_num [cache_ttl]

/-- Counterexample to C9 as stated: with an empty price list the first call
returns `[]` through an early return that never stores anything, so the
cache after the call is empty and the second call one minute later cannot be
"served the stored result of the first from the cache" — it recomputes. -/
theorem C9_counterexample :
    (select_discharge_slots ⟨[]⟩ 0 [] (3/10) 10 80 5 none [] none false 25).2.cache = [] ∧
    get_cached (clean_expired_cache
        (select_discharge_slots ⟨[]⟩ 0 [] (3/10) 10 80 5 none [] none false 25).2.cache 1)
      (CacheKey.discharge 0 (3/10) 10 80 5 none) = none := by
  constructor
  · rfl
  · rfl

/-- C10 (amended): within the TTL, when the first call's computation reached
the caching step, a second call on the same optimizer that agrees on the
number of price slots and the scalar arguments (`min_sell_price`,
`battery_capacity`, `battery_level`, `discharge_rate`, `max_hours`) is served
the first call's cached result even if the price values themselves,
`raw_tomorrow`, `solar_forecast_data`, `multiday_enabled` or
`min_battery_reserve_percent` all differ.  Early-return empty results are not
cached, so they are exempt (see the counterexample). -/
theorem C10_cache_ignores_nonscalars (o : EnergyOptimizer) (t1 t2 : ℚ)
    (raw1 raw2 tom1 tom2 : List PriceSlot) (solar1 solar2 : Option (List (ℚ × ℚ)))
    (multi1 multi2 : Bool) (res1 res2 minp cap lvl rate : ℚ) (mh : Option ℚ)
    (hlen : raw1.length = raw2.length)
    (hmiss : get_cached (clean_expired_cache o.cache t1)
      (CacheKey.discharge raw1.length minp (validate_inputs cap lvl rate).1
        (validate_inputs cap lvl rate).2.1 (validate_inputs cap lvl rate).2.2 mh) = none)
    (hstored : (select_discharge_compute raw1 minp (validate_inputs cap lvl rate).1
      (validate_inputs cap lvl rate).2.1 (validate_inputs cap lvl rate).2.2 mh tom1 solar1
      multi1 res1).isSome)
    (httl : t2 - t1 < cache_ttl) :
    (select_discharge_slots
        (select_discharge_slots o t1 raw1 minp cap lvl rate mh tom1 solar1 multi1 res1).2
        t2 raw2 minp cap lvl rate mh tom2 solar2 multi2 res2).1 =
      (select_discharge_slots o t1 raw1 minp cap lvl rate mh tom1 solar1 multi1 res1).1 := by
  rcases Option.isSome_iff_exists.mp hstored with ⟨r, hc⟩
  have h1 : select_discharge_slots o t1 raw1 minp cap lvl rate mh tom1 solar1 multi1 res1 =
      (r, ⟨set_cached (clean_expired_cache o.cache t1)
        (CacheKey.discharge raw1.length minp (validate_inputs cap lvl rate).1
          (validate_inputs cap lvl rate).2.1 (validate_inputs cap lvl rate).2.2 mh)
        t1 r⟩) := by
    rw [select_discharge_slots]
    rw [hmiss, hc]
  rw [h1]
  rw [select_discharge_slots]
  rw [← hlen]
  rw [get_cached_set_fresh _ _ _ _ _ httl]

/-- Witness for C10 at a concrete input: the second call differs in every
price value, in the solar forecast, in the multiday flag and in the reserve,
yet returns the first call's result. -/
theorem C10_cache_ignores_nonscalars_witness :
    (select_discharge_slots
        (select_discharge_slots ⟨[]⟩ 0 [⟨0, 1, 1/2⟩, ⟨1, 2, 3/5⟩]
          (3/10) 10 80 5 none [] none false 25).2
        3 [⟨0, 1, 7/10⟩, ⟨1, 2, 1/10⟩] (3/10) 10 80 5 none [⟨2, 3, 1/10⟩]
        (some [(0, 500)]) true 10).1 =
      (select_discharge_slots ⟨[]⟩ 0 [⟨0, 1, 1/2⟩, ⟨1, 2, 3/5⟩]
        (3/10) 10 80 5 none [] none false 25).1 := by
  refine C10_cache_ignores_nonscalars ⟨[]⟩ 0 3 [⟨0, 1, 1/2⟩, ⟨1, 2, 3/5⟩]
    [⟨0, 1, 7/10⟩, ⟨1, 2, 1/10⟩] [] [⟨2, 3, 1/10⟩] none (some [(0, 500)]) false true
    25 10 (3/10) 10 80 5 none rfl rfl ?_ (by norm_num [cache_ttl])
  norm_num [select_discharge_compute, discharge_selected_pre, discharge_num_slots, discharge_select_solar, all_prices_of,
    estimate_solar_impact, calculate_slot_duration, sortByLe, insertByLe, legacy_go,
    lookupLevel, legacySel, validate_inputs, List.filter, List.cons_ne_nil]

/-- Counterexample to C10 as stated: a first call whose prices are all below
`min_sell_price` returns `[]` through an early return that stores nothing, so
a second call one minute later with the same slot count and scalars but
higher prices recomputes and returns a different, nonempty result instead of
the first call's `[]`. -/
theorem C10_counterexample :
    (select_discharge_slots ⟨[]⟩ 0 [⟨0, 1, 1/10⟩, ⟨1, 2, 2/10⟩]
      (3/10) 10 80 5 none [] none false 25).1 = [] ∧
    (select_discharge_slots
        (select_discharge_slots ⟨[]⟩ 0 [⟨0, 1, 1/10⟩, ⟨1, 2, 2/10⟩]
          (3/10) 10 80 5 none [] none false 25).2
        1 [⟨0, 1, 9/10⟩, ⟨1, 2, 8/10⟩] (3/10) 10 80 5 none [] none false 25).1 ≠
      (select_discharge_slots ⟨[]⟩ 0 [⟨0, 1, 1/10⟩, ⟨1, 2, 2/10⟩]
        (3/10) 10 80 5 none [] none false 25).1 := by
  have h1 : (select_discharge_slots ⟨[]⟩ 0 [⟨0, 1, 1/10⟩, ⟨1, 2, 2/10⟩]
      (3/10) 10 80 5 none [] none false 25) = ([], ⟨[]⟩) := by
    norm_num [select_discharge_slots, validate_inputs, clean_expired_cache, get_cached,
      select_discharge_compute, discharge_selected_pre, discharge_num_slots, discharge_select_solar, all_prices_of,
      estimate_solar_impact, calculate_slot_duration, List.filter, List.cons_ne_nil]
  have h2 : (select_discharge_slots ⟨[]⟩ 1 [⟨0, 1, 9/10⟩, ⟨1, 2, 8/10⟩]
      (3/10) 10 80 5 none [] none false 25).1 =
      [⟨0, 1, 9/10, 5, 1, 9/2, 0, none, none, false, none, none⟩] := by
    norm_num [select_discharge_slots, validate_inputs, clean_expired_cache, get_cached,
      select_discharge_compute, discharge_selected_pre, discharge_num_slots, discharge_select_solar, all_prices_of,
      estimate_solar_impact, calculate_slot_duration, sortByLe, insertByLe, legacy_go,
      lookupLevel, legacySel, combine_consecutive_slots, combine_go, merge_slot_group,
      set_cached, List.filter, List.cons_ne_nil, Option.map_some', Option.map_none']
  rw [h1]
  refine ⟨rfl, ?_⟩
  rw [h2]
  simp

theorem pairwise_sortByLe_desc_profit (l : List Opportunity) :
    (sortByLe (fun a b => decide (b.profit ≤ a.profit)) l).Pairwise
      (fun a b : Opportunity => b.profit ≤ a.profit) := by
  have := pairwise_sortByLe (fun a b : Opportunity => decide (b.profit ≤ a.profit))
    (fun x y z hxy hyz => by
      simp only [decide_eq_true_eq] at hxy hyz ⊢; exact le_trans hyz hxy)
    (fun x y => by simp only [decide_eq_true_eq]; exact le_total y.profit x.profit) l
  simpa using this

/-- C2 (amended): every returned arbitrage opportunity meets the profit
threshold; the result is sorted by profit descending; and for each charge
window starting at `ci < n - 2`, every slot from index `charge_end_idx + 1`
on — i.e. skipping the slot immediately after the window, which the source's
`range(charge_end_idx + 1, ...)` never examines — whose pair clears the
threshold appears in the result. -/
theorem C2_arbitrage_amended :
    (∀ (raw : List PriceSlot) (cap cr dr eff θ : ℚ),
      ∀ o ∈ calculate_arbitrage_opportunities raw cap cr dr eff θ, θ ≤ o.profit) ∧
    (∀ (raw : List PriceSlot) (cap cr dr eff θ : ℚ),
      (calculate_arbitrage_opportunities raw cap cr dr eff θ).Pairwise
        (fun a b => b.profit ≤ a.profit)) ∧
    (∀ (raw : List PriceSlot) (cap cr dr eff θ : ℚ) (ci di : ℕ) (dslot : PriceSlot),
      3 ≤ raw.length →
      ci < raw.length - 2 →
      min (ci + charge_slots_needed cap (cr * calculate_slot_duration raw))
        raw.length + 1 ≤ di →
      di < raw.length →
      raw[di]? = some dslot →
      θ ≤ (opportunity_at raw cap (cr * calculate_slot_duration raw) eff ci dslot).profit →
      opportunity_at raw cap (cr * calculate_slot_duration raw) eff ci dslot ∈
        calculate_arbitrage_opportunities raw cap cr dr eff θ) := by
  refine ⟨?_, ?_, ?_⟩
  · intro raw cap cr dr eff θ o hmem
    rw [calculate_arbitrage_opportunities] at hmem
    split at hmem
    · simp at hmem
    · rw [mem_sortByLe] at hmem
      rcases List.mem_flatMap.mp hmem with ⟨ci, _, hinner⟩
      rcases List.mem_filterMap.mp hinner with ⟨di, _, hf⟩
      rcases hd : raw[di]? with _ | dslot
      · rw [hd] at hf; exact absurd hf (by simp)
      · simp only [hd] at hf
        split at hf
        · rcases Option.some_injective _ hf with rfl
          assumption
        · exact absurd hf (by simp)
  · intro raw cap cr dr eff θ
    rw [calculate_arbitrage_opportunities]
    split
    · simp
    · exact pairwise_sortByLe_desc_profit _
  · intro raw cap cr dr eff θ ci di dslot h3 hci hlo hhi hdi hθ
    rw [calculate_arbitrage_opportunities, if_neg (by omega)]
    rw [mem_sortByLe]
    refine List.mem_flatMap.mpr ⟨ci, List.mem_range.mpr hci, ?_⟩
    refine List.mem_filterMap.mpr ⟨di, ?_, ?_⟩
    · refine List.mem_range'.mpr ⟨di - (min (ci + charge_slots_needed cap
        (cr * calculate_slot_duration raw)) raw.length + 1), by omega, by omega⟩
    · simp only [hdi]
      rw [if_pos hθ]

/-- Witness for C2 (amended) at a concrete input: 3 slots at prices
0.1 / 10 / 0.9, battery 1 kWh, charge rate 4 kW; the pair (window at index 0,
discharge at index 2) clears the threshold and is in the result. -/
theorem C2_arbitrage_amended_witness :
    opportunity_at [⟨0, 1, 1/10⟩, ⟨1, 2, 10⟩, ⟨2, 3, 9/10⟩] 1
      (4 * calculate_slot_duration [⟨0, 1, 1/10⟩, ⟨1, 2, 10⟩, ⟨2, 3, 9/10⟩]) (7/10) 0
      ⟨2, 3, 9/10⟩ ∈
      calculate_arbitrage_opportunities [⟨0, 1, 1/10⟩, ⟨1, 2, 10⟩, ⟨2, 3, 9/10⟩]
        1 4 5 (7/10) (1/20) := by
  refine C2_arbitrage_amended.2.2 [⟨0, 1, 1/10⟩, ⟨1, 2, 10⟩, ⟨2, 3, 9/10⟩]
    1 4 5 (7/10) (1/20) 0 2 ⟨2, 3, 9/10⟩ (by norm_num) (by norm_num) ?_ (by norm_num) rfl ?_
  · norm_num [charge_slots_needed, ratTrunc, calculate_slot_duration]
  · norm_num [opportunity_at, charge_window, charge_slots_needed, ratTrunc,
      calculate_slot_duration, avg_price]

/-- Counterexample to C2 as stated: with slots priced 0.1 / 10 / 0.2, the
charge window at index 0 is the single first slot, the slot at index 1 is a
later slot whose pair yields profit 6.9 ≥ 0.05, yet the scan starts at
`charge_end_idx + 1 = 2` and returns no opportunity at all (the index-2 pair
only reaches profit 0.04 < 0.05). -/
theorem C2_counterexample :
    calculate_arbitrage_opportunities [⟨0, 1, 1/10⟩, ⟨1, 2, 10⟩, ⟨2, 3, 2/10⟩]
        1 4 5 (7/10) (1/20) = [] ∧
    charge_window [⟨0, 1, 1/10⟩, ⟨1, 2, 10⟩, ⟨2, 3, 2/10⟩] 1
        (4 * calculate_slot_duration [⟨0, 1, 1/10⟩, ⟨1, 2, 10⟩, ⟨2, 3, 2/10⟩]) 0 =
      [⟨0, 1, 1/10⟩] ∧
    (1/20 : ℚ) ≤ (opportunity_at [⟨0, 1, 1/10⟩, ⟨1, 2, 10⟩, ⟨2, 3, 2/10⟩] 1
      (4 * calculate_slot_duration [⟨0, 1, 1/10⟩, ⟨1, 2, 10⟩, ⟨2, 3, 2/10⟩]) (7/10) 0
      ⟨1, 2, 10⟩).profit := by
  refine ⟨?_, ?_, ?_⟩
  · norm_num [calculate_arbitrage_opportunities, calculate_slot_duration,
      charge_slots_needed, ratTrunc, opportunity_at, charge_window, avg_price,
      List.range', List.range_succ, sortByLe, insertByLe]
  · norm_num [charge_window, charge_slots_needed, ratTrunc, calculate_slot_duration]
  · norm_num [opportunity_at, charge_window, charge_slots_needed, ratTrunc,
      calculate_slot_duration, avg_price]

/-! ### The inter-slot solar sum as a set-level sum -/

theorem sumHours_eq_sum (wh : List (ℚ × ℚ)) :
    ∀ (n : ℕ) (h0 : ℤ),
      sumHours wh h0 n = ∑ h ∈ Finset.Ico h0 (h0 + n), lookupWh wh (h : ℚ) := by
  intro n
  induction n with
  | zero => intro h0; simp [sumHours]
  | succ n ih =>
    intro h0
    have hset : Finset.Ico h0 (h0 + (n + 1 : ℕ)) =
        insert h0 (Finset.Ico (h0 + 1) (h0 + 1 + n)) := by
      ext x
      simp only [Finset.mem_Ico, Finset.mem_insert]
      push_cast
      omega
    rw [sumHours, ih, hset, Finset.sum_insert (by simp)]

theorem calculate_solar_between_slots_eq (e s : ℚ) (wh : List (ℚ × ℚ)) :
    calculate_solar_between_slots e s wh =
      (∑ h ∈ Finset.Ico ⌊e⌋ ⌈s⌉, lookupWh wh (h : ℚ)) / 1000 := by
  have hceil : -⌊-s⌋ = ⌈s⌉ := by rw [Int.floor_neg, neg_neg]
  rw [calculate_solar_between_slots, sumHours_eq_sum]
  by_cases hc : ⌊e⌋ ≤ ⌈s⌉
  · have hbound : ⌊e⌋ + (((-⌊-s⌋ - ⌊e⌋).toNat : ℕ) : ℤ) = ⌈s⌉ := by omega
    rw [hbound]
  · have h1 : (-⌊-s⌋ - ⌊e⌋).toNat = 0 := by omega
    rw [h1]
    have h2 : Finset.Ico ⌊e⌋ ⌈s⌉ = ∅ := Finset.Ico_eq_empty (by omega)
    simp [h2]

/-- C7 (amended): the solar credit between two slots is the sum of exactly
the whole-hour buckets from the hour containing the earlier slot's end
(`⌊end⌋`) up to the last whole hour strictly before the later slot's start —
equivalently, of every hour bucket `[h, h+1)` that overlaps the gap (second
conjunct) — converted from Wh to kWh; the projector's step adds exactly this
amount, capped at capacity, when it is positive (third conjunct). -/
theorem C7_solar_between_amended :
    (∀ (e s : ℚ) (wh : List (ℚ × ℚ)),
      calculate_solar_between_slots e s wh =
        (∑ h ∈ Finset.Ico ⌊e⌋ ⌈s⌉, lookupWh wh (h : ℚ)) / 1000) ∧
    (∀ (e s : ℚ) (h : ℤ),
      h ∈ Finset.Ico ⌊e⌋ ⌈s⌉ ↔ ((h : ℚ) < s ∧ e < (h : ℚ) + 1)) ∧
    (∀ (cap : ℚ) (wh : List (ℚ × ℚ)) (p s : PriceSlot) (b : ℚ),
      solar_credit cap (some p) (some wh) s b =
        if 0 < (∑ h ∈ Finset.Ico ⌊p.stop⌋ ⌈s.start⌉, lookupWh wh (h : ℚ)) / 1000 then
          min (b + (∑ h ∈ Finset.Ico ⌊p.stop⌋ ⌈s.start⌉, lookupWh wh (h : ℚ)) / 1000) cap
        else b) := by
  refine ⟨calculate_solar_between_slots_eq, ?_, ?_⟩
  · intro e s h
    simp only [Finset.mem_Ico]
    constructor
    · rintro ⟨h1, h2⟩
      constructor
      · have hs1 : (h : ℚ) ≤ (⌈s⌉ : ℚ) - 1 := by
          have : h ≤ ⌈s⌉ - 1 := by omega
          exact_mod_cast this
        have hs2 : ((⌈s⌉ : ℚ) - 1) < s := by
          have := Int.ceil_lt_add_one s
          linarith
        linarith
      · have h4 := Int.lt_floor_add_one e
        have h5 : ((⌊e⌋ : ℚ)) ≤ (h : ℚ) := by exact_mod_cast h1
        linarith
    · rintro ⟨h1, h2⟩
      constructor
      · have h4 := Int.floor_le e
        have h5 : ((⌊e⌋ : ℚ)) < (h : ℚ) + 1 := lt_of_le_of_lt h4 h2
        have h6 : ⌊e⌋ < h + 1 := by exact_mod_cast h5
        omega
      · have h4 := Int.le_ceil s
        have h5 : (h : ℚ) < (⌈s⌉ : ℚ) := lt_of_lt_of_le h1 h4
        exact_mod_cast h5
  · intro cap wh p s b
    simp only [solar_credit]
    rw [calculate_solar_between_slots_eq]

/-- Witness for C7 (amended) at a concrete input: hour buckets keyed 0 and 1
with a slot gap from 0.25 h to 2 h credit `1000 + 200` Wh. -/
theorem C7_solar_between_amended_witness :
    calculate_solar_between_slots (1/4) 2 [(0, 1000), (1, 200)] =
      (∑ h ∈ Finset.Ico ⌊(1 : ℚ)/4⌋ ⌈(2 : ℚ)⌉,
        lookupWh [(0, 1000), (1, 200)] (h : ℚ)) / 1000 :=
  C7_solar_between_amended.1 (1/4) 2 [(0, 1000), (1, 200)]

/-- Counterexample to C7 as stated: for a gap from 0.25 h to 1 h with a
single bucket at hour key 0, the code credits the full 1 kWh of the bucket
containing the boundary (its key 0 lies before the gap), whereas the buckets
"falling between" 0.25 and 1 sum to zero. -/
theorem C7_counterexample :
    calculate_solar_between_slots (1/4) 1 [(0, 1000)] = 1 ∧
    solar_between_claimed (1/4) 1 [(0, 1000)] = 0 := by
  constructor
  · have hfl : ⌊(1 : ℚ)/4⌋ = 0 := by norm_num
    have hfl2 : -⌊-(1 : ℚ)⌋ = 1 := by norm_num
    rw [calculate_solar_between_slots, hfl, hfl2]
    norm_num [sumHours, lookupWh, List.find?]
  · have hc1 : ⌈(1 : ℚ)/4⌉ = 1 := by
      rw [Int.ceil_eq_iff] <;> norm_num
    have hc2 : ⌈(1 : ℚ)⌉ = 1 := by norm_num
    rw [solar_between_claimed, hc1, hc2]
    simp

/-! ### Helper lemmas for battery-level monotonicity -/

theorem estimate_go_eq_none_iff (wh : List (ℚ × ℚ)) (cap : ℚ) :
    ∀ (ps : List PriceSlot) (lvl1 lvl2 : ℚ) (acc1 acc2 : List (ℚ × ℚ)),
      (estimate_go wh cap ps lvl1 acc1 = none) ↔ (estimate_go wh cap ps lvl2 acc2 = none) := by
  intro ps
  induction ps with
  | nil => intro lvl1 lvl2 acc1 acc2; simp [estimate_go]
  | cons s rest ih =>
    intro lvl1 lvl2 acc1 acc2
    rw [estimate_go, estimate_go]
    by_cases h1 : 0 < lookupWh wh s.start
    · rw [if_pos h1, if_pos h1]
      by_cases h2 : cap = 0
      · rw [if_pos h2, if_pos h2]
      · rw [if_neg h2, if_neg h2]
        exact ih _ _ _ _
    · rw [if_neg h1, if_neg h1]
      exact ih _ _ _ _

theorem estimate_go_some_length (wh : List (ℚ × ℚ)) (cap : ℚ) :
    ∀ (ps : List PriceSlot) (lvl : ℚ) (acc : List (ℚ × ℚ)) (res : List (ℚ × ℚ)),
      estimate_go wh cap ps lvl acc = some res → res.length = acc.length + ps.length := by
  intro ps
  induction ps with
  | nil =>
    intro lvl acc res h
    rcases Option.some_injective _ (by simpa [estimate_go] using h) with rfl
    simp
  | cons s rest ih =>
    intro lvl acc res h
    rw [estimate_go] at h
    by_cases h1 : 0 < lookupWh wh s.start
    · rw [if_pos h1] at h
      by_cases h2 : cap = 0
      · rw [if_pos h2] at h; exact absurd h (by simp)
      · rw [if_neg h2] at h
        have := ih _ _ _ h
        simpa [Nat.add_assoc, Nat.add_comm 1 rest.length] using this
    · rw [if_neg h1] at h
      have := ih _ _ _ h
      simpa [Nat.add_assoc, Nat.add_comm 1 rest.length] using this

theorem estimate_empty_iff (ps : List PriceSlot) (solar : Option (List (ℚ × ℚ)))
    (cap lvl1 lvl2 : ℚ) :
    (estimate_solar_impact ps solar cap lvl1 = []) ↔
      (estimate_solar_impact ps solar cap lvl2 = []) := by
  rcases solar with _ | wh
  · simp [estimate_solar_impact]
  · rw [estimate_solar_impact, estimate_solar_impact]
    by_cases h1 : ps = []
    · rw [if_pos h1, if_pos h1]
    · rw [if_neg h1, if_neg h1]
      by_cases h2 : wh = []
      · rw [if_pos h2, if_pos h2]
      · rw [if_neg h2, if_neg h2]
        rcases hg1 : estimate_go wh cap ps lvl1 [] with _ | r1
        · have hg2 : estimate_go wh cap ps lvl2 [] = none :=
            (estimate_go_eq_none_iff wh cap ps lvl1 lvl2 [] []).mp hg1
          rw [hg2]
        · rcases hg2 : estimate_go wh cap ps lvl2 [] with _ | r2
          · have hcontra := (estimate_go_eq_none_iff wh cap ps lvl2 lvl1 [] []).mp hg2
            rw [hg1] at hcontra
            exact absurd hcontra (by simp)
          · have hr1 := estimate_go_some_length wh cap ps lvl1 [] r1 hg1
            have hr2 := estimate_go_some_length wh cap ps lvl2 [] r2 hg2
            simp only [Option.getD_some]
            constructor
            · intro h; exact List.length_eq_zero.mp (by
                rw [hr2]
                have := List.length_eq_zero.mpr h
                rw [hr1] at this
                simpa using this)
            · intro h; exact List.length_eq_zero.mp (by
                rw [hr1]
                have := List.length_eq_zero.mpr h
                rw [hr2] at this
                simpa using this)

theorem greedy_hours_length_mono (dur mh : ℚ) :
    ∀ (l1 l2 : List ProjSlot) (t : ℚ), l1.length ≤ l2.length →
      (greedy_hours dur mh l1 t).length ≤ (greedy_hours dur mh l2 t).length := by
  intro l1
  induction l1 with
  | nil => intro l2 t _; simp [greedy_hours]
  | cons a t1 ih =>
    intro l2 t hl
    rcases l2 with _ | ⟨b, t2⟩
    · simp at hl
    · rw [greedy_hours, greedy_hours]
      by_cases hc : t + dur ≤ mh
      · rw [if_pos hc, if_pos hc]
        simpa using ih t2 (t + dur) (by simpa using hl)
      · rw [if_neg hc, if_neg hc]
        exact ih t2 t (by simpa using hl)

theorem greedy_hours_mem (dur mh : ℚ) :
    ∀ (l : List ProjSlot) (t : ℚ) (p : SelSlot),
      p ∈ greedy_hours dur mh l t → ∃ q ∈ l, p = projToSel dur q := by
  intro l
  induction l with
  | nil => intro t p hp; simp [greedy_hours] at hp
  | cons a t1 ih =>
    intro t p hp
    rw [greedy_hours] at hp
    split at hp
    · rcases List.mem_cons.mp hp with rfl | hp
      · exact ⟨a, List.mem_cons_self .., rfl⟩
      · rcases ih _ p hp with ⟨q, hq, hpq⟩
        exact ⟨q, List.mem_cons_of_mem _ hq, hpq⟩
    · rcases ih _ p hp with ⟨q, hq, hpq⟩
      exact ⟨q, List.mem_cons_of_mem _ hq, hpq⟩

theorem sum_energy_const (e : ℚ) :
    ∀ (l : List SelSlot), (∀ p ∈ l, p.energy_kwh = e) →
      (l.map SelSlot.energy_kwh).sum = e * l.length := by
  intro l
  induction l with
  | nil => intro _; simp
  | cons a t ih =>
    intro h
    have ha := h a (List.mem_cons_self ..)
    have ht := ih (fun p hp => h p (List.mem_cons_of_mem _ hp))
    simp only [List.map_cons, List.sum_cons, ht, ha, List.length_cons]
    push_cast
    ring

theorem solar_credit_le_add (cap : ℚ) (prev : Option PriceSlot)
    (solar : Option (List (ℚ × ℚ))) (s : PriceSlot) (x y d : ℚ)
    (hd : 0 ≤ d) (h : x ≤ y + d) :
    solar_credit cap prev solar s x ≤ solar_credit cap prev solar s y + d := by
  rcases prev with _ | p <;> rcases solar with _ | wh <;>
    simp only [solar_credit] <;> try exact h
  by_cases hs : 0 < calculate_solar_between_slots p.stop s.start wh
  · rw [if_pos hs, if_pos hs]
    calc min (x + calculate_solar_between_slots p.stop s.start wh) cap
        ≤ min (y + d + calculate_solar_between_slots p.stop s.start wh) (cap + d) :=
          min_le_min (by linarith) (by linarith)
      _ = min (y + calculate_solar_between_slots p.stop s.start wh) cap + d := by
          rw [show y + d + calculate_solar_between_slots p.stop s.start wh =
            y + calculate_solar_between_slots p.stop s.start wh + d by ring]
          exact min_add_add_right ..
  · rw [if_neg hs, if_neg hs]
    exact h

theorem project_go_count_mono (cap rate dur : ℚ) (solar : Option (List (ℚ × ℚ)))
    (he : 0 ≤ rate * dur) :
    ∀ (l : List PriceSlot) (prev : Option PriceSlot) (b1 b2 : ℚ) (k : ℕ),
      b1 ≤ b2 + (rate * dur) * k →
      (project_go cap rate dur solar prev l b1).length ≤
        (project_go cap rate dur solar prev l b2).length + k := by
  intro l
  induction l with
  | nil => intro prev b1 b2 k _; simp [project_go]
  | cons s rest ih =>
    intro prev b1 b2 k hb
    have hcred : solar_credit cap prev solar s b1 ≤
        solar_credit cap prev solar s b2 + (rate * dur) * k :=
      solar_credit_le_add cap prev solar s b1 b2 ((rate * dur) * k)
        (by positivity) hb
    rw [project_go, project_go]
    by_cases h1 : rate * dur ≤ solar_credit cap prev solar s b1
    · by_cases h2 : rate * dur ≤ solar_credit cap prev solar s b2
      · rw [if_pos h1, if_pos h2]
        simp only [List.length_cons]
        have := ih (some s) (solar_credit cap prev solar s b1 - rate * dur)
          (solar_credit cap prev solar s b2 - rate * dur) k (by linarith)
        omega
      · rw [if_pos h1, if_neg h2]
        rcases k with _ | k'
        · exfalso
          push_cast at hcred
          have := lt_of_not_le h2
          linarith
        · simp only [List.length_cons]
          have := ih (some s) (solar_credit cap prev solar s b1 - rate * dur)
            (solar_credit cap prev solar s b2) k' (by
              push_cast at hcred ⊢
              nlinarith [he])
          omega
    · by_cases h2 : rate * dur ≤ solar_credit cap prev solar s b2
      · rw [if_neg h1, if_pos h2]
        simp only [List.length_cons]
        have := ih (some s) (solar_credit cap prev solar s b1)
          (solar_credit cap prev solar s b2 - rate * dur) (k + 1) (by
            push_cast
            push_cast at hcred
            linarith)
        omega
      · rw [if_neg h1, if_neg h2]
        exact ih (some s) _ _ k hcred

theorem project_go_energy (cap rate dur : ℚ) (solar : Option (List (ℚ × ℚ))) :
    ∀ (l : List PriceSlot) (prev : Option PriceSlot) (b : ℚ) (p : ProjSlot),
      p ∈ project_go cap rate dur solar prev l b → p.energy_kwh = rate * dur :=
  fun l prev b p hp => (project_go_mem cap rate dur solar l prev b p hp).2

theorem legacy_go_full (cap A e dur : ℚ) (he : 0 < e) :
    ∀ (l : List PriceSlot) (tot : ℚ),
      tot + e * l.length ≤ A →
      (legacy_go cap A e dur [] l tot).length = l.length ∧
      ((legacy_go cap A e dur [] l tot).map SelSlot.energy_kwh).sum = e * l.length := by
  intro l
  induction l with
  | nil => intro tot _; simp [legacy_go]
  | cons s rest ih =>
    intro tot htot
    have hlookup : lookupLevel [] s.start = none := rfl
    have havail : (match lookupLevel [] s.start with
        | some lvl => cap * lvl / 100
        | none => A) = A := by rw [hlookup]
    have hlen : (0 : ℚ) ≤ rest.length := by positivity
    have hemin : min e ((match lookupLevel [] s.start with
        | some lvl => cap * lvl / 100
        | none => A) - tot) = e := by
      rw [havail]
      apply min_eq_left
      simp only [List.length_cons] at htot
      push_cast at htot
      nlinarith [hlen, he]
    rw [legacy_go]
    rw [if_pos (by rw [hemin]; exact he)]
    have hrec := ih (tot + e) (by
      simp only [List.length_cons] at htot
      push_cast at htot ⊢
      linarith)
    constructor
    · simp only [hemin, List.length_cons, hrec.1]
    · simp only [hemin, List.map_cons, List.sum_cons, legacySel, hrec.2, List.length_cons]
      push_cast
      ring

theorem legacy_go_energy_pos (cap A e dur : ℚ) (est : List (ℚ × ℚ)) :
    ∀ (l : List PriceSlot) (tot : ℚ) (p : SelSlot),
      p ∈ legacy_go cap A e dur est l tot → 0 < p.energy_kwh := by
  intro l
  induction l with
  | nil => intro tot p hp; simp [legacy_go] at hp
  | cons s rest ih =>
    intro tot p hp
    rw [legacy_go] at hp
    split at hp
    · rcases List.mem_cons.mp hp with rfl | hp
      · simpa [legacySel] using (by assumption : 0 < min e ((match lookupLevel est s.start with
          | some lvl => cap * lvl / 100
          | none => A) - tot))
      · exact ih _ p hp
    · exact ih _ p hp

theorem discharge_select_solar_mem (dur : ℚ) (mh : Option ℚ) :
    ∀ (ps : List ProjSlot) (p : SelSlot),
      p ∈ discharge_select_solar dur mh ps → ∃ q ∈ ps, p = projToSel dur q := by
  intro ps p hp
  rcases mh with _ | m
  · rcases List.mem_map.mp (by simpa [discharge_select_solar] using hp) with ⟨q, hq, hpq⟩
    exact ⟨q, hq, hpq.symm⟩
  · rw [discharge_select_solar] at hp
    split at hp
    · exact greedy_hours_mem dur m ps 0 p hp
    · rcases List.mem_map.mp hp with ⟨q, hq, hpq⟩
      exact ⟨q, hq, hpq.symm⟩

theorem discharge_select_solar_length_mono (dur : ℚ) (mh : Option ℚ)
    (ps1 ps2 : List ProjSlot) (h : ps1.length ≤ ps2.length) :
    (discharge_select_solar dur mh ps1).length ≤
      (discharge_select_solar dur mh ps2).length := by
  rcases mh with _ | m
  · simpa [discharge_select_solar] using h
  · rw [discharge_select_solar, discharge_select_solar]
    split
    · exact greedy_hours_length_mono dur m ps1 ps2 0 h
    · simpa using h

theorem discharge_select_solar_energy (dur e : ℚ) (mh : Option ℚ)
    (ps : List ProjSlot) (hps : ∀ q ∈ ps, q.energy_kwh = e) :
    ((discharge_select_solar dur mh ps).map SelSlot.energy_kwh).sum =
      e * (discharge_select_solar dur mh ps).length := by
  apply sum_energy_const
  intro p hp
  rcases discharge_select_solar_mem dur mh ps p hp with ⟨q, hq, rfl⟩
  simpa [projToSel] using hps q hq

theorem discharge_num_slots_mono (mh : Option ℚ) (len d1 d2 : ℕ) (dur : ℚ)
    (h : d1 ≤ d2) :
    discharge_num_slots mh len d1 dur ≤ discharge_num_slots mh len d2 dur := by
  rcases mh with _ | m
  · simp only [discharge_num_slots]; omega
  · simp only [discharge_num_slots]
    split <;> omega

theorem maxds_mono (A1 A2 e : ℚ) (h : A1 ≤ A2) (he : 0 < e) :
    (⌊A1 / e⌋).toNat ≤ (⌊A2 / e⌋).toNat := by
  have hf : ⌊A1 / e⌋ ≤ ⌊A2 / e⌋ := Int.floor_le_floor (by gcongr)
  omega

theorem num_mul_le (A e : ℚ) (he : 0 < e) (hA : 0 ≤ A) (n : ℕ)
    (hn : n ≤ (⌊A / e⌋).toNat) :
    (n : ℚ) * e ≤ A := by
  have h0 : (0 : ℤ) ≤ ⌊A / e⌋ := Int.floor_nonneg.mpr (by positivity)
  have h1 : (n : ℚ) ≤ ((⌊A / e⌋ : ℤ) : ℚ) := by
    have : (n : ℤ) ≤ ⌊A / e⌋ := by omega
    exact_mod_cast this
  have h2 : ((⌊A / e⌋ : ℤ) : ℚ) ≤ A / e := Int.floor_le _
  calc (n : ℚ) * e ≤ (A / e) * e := by
        apply mul_le_mul_of_nonneg_right (le_trans h1 h2) (le_of_lt he)
    _ = A := div_mul_cancel₀ A (ne_of_gt he)

theorem discharge_pre_none_of (raw : List PriceSlot) (minp cap lvl rate : ℚ)
    (mh : Option ℚ) (tom : List PriceSlot) (solar : Option (List (ℚ × ℚ))) (multi : Bool)
    (h : raw = [] ∨ cap * lvl / 100 ≤ 0 ∨
      rate * calculate_slot_duration (all_prices_of raw tom multi) ≤ 0 ∨
      ((⌊cap * lvl / 100 /
          (rate * calculate_slot_duration (all_prices_of raw tom multi))⌋.toNat = 0) ∧
        (if solar.isSome = true ∧ multi = true then
          estimate_solar_impact (all_prices_of raw tom multi) solar cap lvl
        else []) = []) ∨
      (all_prices_of raw tom multi).filter (fun s => decide (minp ≤ s.value)) = [] ∨
      (solar.isSome = true ∧ project_battery_state
        ((all_prices_of raw tom multi).filter (fun s => decide (minp ≤ s.value)))
        (cap * lvl / 100) cap rate
        (calculate_slot_duration (all_prices_of raw tom multi)) solar = [])) :
    discharge_selected_pre raw minp cap lvl rate mh tom solar multi = none := by
  rw [discharge_selected_pre]
  dsimp only
  by_cases g0 : raw = []
  · rw [if_pos g0]
  rw [if_neg g0]
  by_cases g1 : cap * lvl / 100 ≤ 0
  · rw [if_pos g1]
  rw [if_neg g1]
  by_cases g2 : rate * calculate_slot_duration (all_prices_of raw tom multi) ≤ 0
  · rw [if_pos g2]
  rw [if_neg g2]
  by_cases g3 : (⌊cap * lvl / 100 /
      (rate * calculate_slot_duration (all_prices_of raw tom multi))⌋.toNat = 0) ∧
      (if solar.isSome = true ∧ multi = true then
        estimate_solar_impact (all_prices_of raw tom multi) solar cap lvl
      else []) = []
  · rw [if_pos g3]
  rw [if_neg g3]
  by_cases g4 : (all_prices_of raw tom multi).filter (fun s => decide (minp ≤ s.value)) = []
  · rw [if_pos g4]
  rw [if_neg g4]
  rcases solar with _ | wh
  · exfalso
    rcases h with h | h | h | h | h | ⟨hwh, _⟩
    · exact g0 h
    · exact g1 h
    · exact g2 h
    · exact g3 h
    · exact g4 h
    · simp at hwh
  · have hfeas : project_battery_state
        ((all_prices_of raw tom multi).filter (fun s => decide (minp ≤ s.value)))
        (cap * lvl / 100) cap rate
        (calculate_slot_duration (all_prices_of raw tom multi)) (some wh) = [] := by
      rcases h with h | h | h | h | h | ⟨_, hf⟩
      · exact absurd h g0
      · exact absurd h g1
      · exact absurd h g2
      · exact absurd h g3
      · exact absurd h g4
      · exact hf
    rw [if_pos hfeas]

theorem discharge_pre_eq_legacy (raw : List PriceSlot) (minp cap lvl rate : ℚ)
    (mh : Option ℚ) (tom : List PriceSlot) (multi : Bool)
    (h0 : ¬ raw = [])
    (h1 : ¬ cap * lvl / 100 ≤ 0)
    (h2 : ¬ rate * calculate_slot_duration (all_prices_of raw tom multi) ≤ 0)
    (h3 : ¬ ⌊cap * lvl / 100 /
      (rate * calculate_slot_duration (all_prices_of raw tom multi))⌋.toNat = 0)
    (h4 : ¬ (all_prices_of raw tom multi).filter (fun s => decide (minp ≤ s.value)) = []) :
    discharge_selected_pre raw minp cap lvl rate mh tom none multi =
      some (legacy_go cap (cap * lvl / 100)
        (rate * calculate_slot_duration (all_prices_of raw tom multi))
        (calculate_slot_duration (all_prices_of raw tom multi)) []
        ((sortByLe (fun a b => decide (b.value ≤ a.value))
            ((all_prices_of raw tom multi).filter (fun s => decide (minp ≤ s.value)))).take
          (discharge_num_slots mh
            (sortByLe (fun a b => decide (b.value ≤ a.value))
              ((all_prices_of raw tom multi).filter
                (fun s => decide (minp ≤ s.value)))).length
            (⌊cap * lvl / 100 /
              (rate * calculate_slot_duration (all_prices_of raw tom multi))⌋.toNat)
            (calculate_slot_duration (all_prices_of raw tom multi)))) 0) := by
  rw [discharge_selected_pre]
  dsimp only
  rw [if_neg h0, if_neg h1, if_neg h2]
  rw [if_neg (show ¬ ((⌊cap * lvl / 100 /
      (rate * calculate_slot_duration (all_prices_of raw tom multi))⌋.toNat = 0) ∧
      (if (none : Option (List (ℚ × ℚ))).isSome = true ∧ multi = true then
        estimate_solar_impact (all_prices_of raw tom multi) none cap lvl
      else []) = []) from fun hc => h3 hc.1)]
  rw [if_neg h4]
  rw [if_neg (show ¬ ((none : Option (List (ℚ × ℚ))).isSome = true ∧ multi = true) by simp)]

theorem discharge_pre_eq_solar (raw : List PriceSlot) (minp cap lvl rate : ℚ)
    (mh : Option ℚ) (tom : List PriceSlot) (wh : List (ℚ × ℚ)) (multi : Bool)
    (h0 : ¬ raw = [])
    (h1 : ¬ cap * lvl / 100 ≤ 0)
    (h2 : ¬ rate * calculate_slot_duration (all_prices_of raw tom multi) ≤ 0)
    (h3 : ¬ ((⌊cap * lvl / 100 /
        (rate * calculate_slot_duration (all_prices_of raw tom multi))⌋.toNat = 0) ∧
      (if (some wh : Option (List (ℚ × ℚ))).isSome = true ∧ multi = true then
        estimate_solar_impact (all_prices_of raw tom multi) (some wh) cap lvl
      else []) = []))
    (h4 : ¬ (all_prices_of raw tom multi).filter (fun s => decide (minp ≤ s.value)) = [])
    (h5 : ¬ project_battery_state
      ((all_prices_of raw tom multi).filter (fun s => decide (minp ≤ s.value)))
      (cap * lvl / 100) cap rate
      (calculate_slot_duration (all_prices_of raw tom multi)) (some wh) = []) :
    discharge_selected_pre raw minp cap lvl rate mh tom (some wh) multi =
      some (discharge_select_solar
        (calculate_slot_duration (all_prices_of raw tom multi)) mh
        (sortByLe (fun a b => decide (b.price ≤ a.price))
          (project_battery_state
            ((all_prices_of raw tom multi).filter (fun s => decide (minp ≤ s.value)))
            (cap * lvl / 100) cap rate
            (calculate_slot_duration (all_prices_of raw tom multi)) (some wh)))) := by
  rw [discharge_selected_pre]
  dsimp only
  rw [if_neg h0, if_neg h1, if_neg h2, if_neg h3, if_neg h4, if_neg h5]

theorem discharge_pre_energy_nonneg (raw : List PriceSlot) (minp cap lvl rate : ℚ)
    (mh : Option ℚ) (tom : List PriceSlot) (solar : Option (List (ℚ × ℚ))) (multi : Bool)
    (l : List SelSlot)
    (h : discharge_selected_pre raw minp cap lvl rate mh tom solar multi = some l) :
    ∀ p ∈ l, 0 ≤ p.energy_kwh := by
  by_cases g0 : raw = []
  · rw [discharge_pre_none_of raw minp cap lvl rate mh tom solar multi (Or.inl g0)] at h
    exact absurd h (by simp)
  by_cases g1 : cap * lvl / 100 ≤ 0
  · rw [discharge_pre_none_of raw minp cap lvl rate mh tom solar multi
      (Or.inr (Or.inl g1))] at h
    exact absurd h (by simp)
  by_cases g2 : rate * calculate_slot_duration (all_prices_of raw tom multi) ≤ 0
  · rw [discharge_pre_none_of raw minp cap lvl rate mh tom solar multi
      (Or.inr (Or.inr (Or.inl g2)))] at h
    exact absurd h (by simp)
  have he : 0 < rate * calculate_slot_duration (all_prices_of raw tom multi) :=
    lt_of_not_le g2
  by_cases g4 : (all_prices_of raw tom multi).filter (fun s => decide (minp ≤ s.value)) = []
  · rw [discharge_pre_none_of raw minp cap lvl rate mh tom solar multi
      (Or.inr (Or.inr (Or.inr (Or.inr (Or.inl g4)))))] at h
    exact absurd h (by simp)
  rcases solar with _ | wh
  · by_cases g3 : ⌊cap * lvl / 100 /
        (rate * calculate_slot_duration (all_prices_of raw tom multi))⌋.toNat = 0
    · rw [discharge_pre_none_of raw minp cap lvl rate mh tom none multi
        (Or.inr (Or.inr (Or.inr (Or.inl ⟨g3, by simp⟩))))] at h
      exact absurd h (by simp)
    · rw [discharge_pre_eq_legacy raw minp cap lvl rate mh tom multi g0 g1 g2 g3 g4] at h
      rcases Option.some_injective _ h with rfl
      intro p hp
      exact le_of_lt (legacy_go_energy_pos _ _ _ _ _ _ _ p hp)
  · by_cases g3 : (⌊cap * lvl / 100 /
        (rate * calculate_slot_duration (all_prices_of raw tom multi))⌋.toNat = 0) ∧
        (if (some wh : Option (List (ℚ × ℚ))).isSome = true ∧ multi = true then
          estimate_solar_impact (all_prices_of raw tom multi) (some wh) cap lvl
        else []) = []
    · rw [discharge_pre_none_of raw minp cap lvl rate mh tom (some wh) multi
        (Or.inr (Or.inr (Or.inr (Or.inl g3))))] at h
      exact absurd h (by simp)
    by_cases g5 : project_battery_state
        ((all_prices_of raw tom multi).filter (fun s => decide (minp ≤ s.value)))
        (cap * lvl / 100) cap rate
        (calculate_slot_duration (all_prices_of raw tom multi)) (some wh) = []
    · rw [discharge_pre_none_of raw minp cap lvl rate mh tom (some wh) multi
        (Or.inr (Or.inr (Or.inr (Or.inr (Or.inr ⟨by simp, g5⟩)))))] at h
      exact absurd h (by simp)
    · rw [discharge_pre_eq_solar raw minp cap lvl rate mh tom wh multi
        g0 g1 g2 g3 g4 g5] at h
      rcases Option.some_injective _ h with rfl
      intro p hp
      rcases discharge_select_solar_mem _ _ _ p hp with ⟨q, hq, rfl⟩
      have hqf := (mem_sortByLe _ q _).mp hq
      have hE := project_go_mem cap rate
        (calculate_slot_duration (all_prices_of raw tom multi)) (some wh) _ none _ q hqf
      simp only [projToSel]
      rw [hE.2]
      exact le_of_lt he

theorem discharge_pre_sum_nonneg (raw : List PriceSlot) (minp cap lvl rate : ℚ)
    (mh : Option ℚ) (tom : List PriceSlot) (solar : Option (List (ℚ × ℚ))) (multi : Bool) :
    0 ≤ (((discharge_selected_pre raw minp cap lvl rate mh tom solar
      multi).getD []).map SelSlot.energy_kwh).sum := by
  rcases h : discharge_selected_pre raw minp cap lvl rate mh tom solar multi with _ | l
  · simp
  · simp only [Option.getD_some]
    refine List.sum_nonneg ?_
    intro x hx
    rcases List.mem_map.mp hx with ⟨p, hp, rfl⟩
    exact discharge_pre_energy_nonneg raw minp cap lvl rate mh tom solar multi l h p hp

theorem discharge_num_slots_le (mh : Option ℚ) (len d : ℕ) (dur : ℚ) :
    discharge_num_slots mh len d dur ≤ d := by
  rcases mh with _ | m
  · simp only [discharge_num_slots]; omega
  · simp only [discharge_num_slots]
    split <;> omega

theorem legacy_take_bound (A e dur : ℚ) (he : 0 < e) (hA : 0 ≤ A)
    (l : List PriceSlot) (mh : Option ℚ) :
    (0 : ℚ) + e * ((l.take (discharge_num_slots mh l.length (⌊A / e⌋).toNat dur)).length : ℚ) ≤
      A := by
  rw [zero_add, mul_comm]
  refine num_mul_le A e he hA _ ?_
  have h1 : (l.take (discharge_num_slots mh l.length (⌊A / e⌋).toNat dur)).length ≤
      discharge_num_slots mh l.length (⌊A / e⌋).toNat dur := by
    rw [List.length_take]; omega
  exact le_trans h1 (discharge_num_slots_le mh l.length _ dur)

/-- C6 (amended): with everything but `battery_level` fixed, a higher level
never shrinks the pre-merge selection: the number of individually selected
discharge slots and their total energy are both monotone in the level (the
returned list then merges these slots into periods, and the number of
periods alone may drop when extra slots bridge two runs — see the
counterexample). -/
theorem C6_battery_level_monotonicity (raw : List PriceSlot)
    (minp cap lvl1 lvl2 rate : ℚ) (mh : Option ℚ) (tom : List PriceSlot)
    (solar : Option (List (ℚ × ℚ))) (multi : Bool) (hlvl : lvl1 ≤ lvl2) :
    ((discharge_selected_pre raw minp (validate_inputs cap lvl1 rate).1
        (validate_inputs cap lvl1 rate).2.1 (validate_inputs cap lvl1 rate).2.2 mh tom
        solar multi).getD []).length ≤
      ((discharge_selected_pre raw minp (validate_inputs cap lvl2 rate).1
        (validate_inputs cap lvl2 rate).2.1 (validate_inputs cap lvl2 rate).2.2 mh tom
        solar multi).getD []).length ∧
    (((discharge_selected_pre raw minp (validate_inputs cap lvl1 rate).1
        (validate_inputs cap lvl1 rate).2.1 (validate_inputs cap lvl1 rate).2.2 mh tom
        solar multi).getD []).map SelSlot.energy_kwh).sum ≤
      (((discharge_selected_pre raw minp (validate_inputs cap lvl2 rate).1
        (validate_inputs cap lvl2 rate).2.1 (validate_inputs cap lvl2 rate).2.2 mh tom
        solar multi).getD []).map SelSlot.energy_kwh).sum := by
  simp only [validate_inputs]
  have hL : max 0 (min 100 lvl1) ≤ max 0 (min 100 lvl2) :=
    max_le_max (le_refl 0) (min_le_min (le_refl 100) hlvl)
  have hA : max 0 cap * max 0 (min 100 lvl1) / 100 ≤
      max 0 cap * max 0 (min 100 lvl2) / 100 := by gcongr
  by_cases g0 : raw = []
  · rw [discharge_pre_none_of raw minp _ _ _ mh tom solar multi (Or.inl g0),
      discharge_pre_none_of raw minp _ _ _ mh tom solar multi (Or.inl g0)]
    simp
  by_cases g2 : max 0 rate * calculate_slot_duration (all_prices_of raw tom multi) ≤ 0
  · rw [discharge_pre_none_of raw minp _ _ _ mh tom solar multi
        (Or.inr (Or.inr (Or.inl g2))),
      discharge_pre_none_of raw minp _ _ _ mh tom solar multi
        (Or.inr (Or.inr (Or.inl g2)))]
    simp
  have he : 0 < max 0 rate * calculate_slot_duration (all_prices_of raw tom multi) :=
    lt_of_not_le g2
  by_cases g1 : max 0 cap * max 0 (min 100 lvl1) / 100 ≤ 0
  · rw [discharge_pre_none_of raw minp _ _ _ mh tom solar multi (Or.inr (Or.inl g1))]
    exact ⟨by simp, by simpa using discharge_pre_sum_nonneg raw minp _ _ _ mh tom solar multi⟩
  have g1' : ¬ max 0 cap * max 0 (min 100 lvl2) / 100 ≤ 0 := fun hc => g1 (le_trans hA hc)
  by_cases g4 : (all_prices_of raw tom multi).filter (fun s => decide (minp ≤ s.value)) = []
  · rw [discharge_pre_none_of raw minp _ _ _ mh tom solar multi
        (Or.inr (Or.inr (Or.inr (Or.inr (Or.inl g4))))),
      discharge_pre_none_of raw minp _ _ _ mh tom solar multi
        (Or.inr (Or.inr (Or.inr (Or.inr (Or.inl g4)))))]
    simp
  have hds : (⌊max 0 cap * max 0 (min 100 lvl1) / 100 /
      (max 0 rate * calculate_slot_duration (all_prices_of raw tom multi))⌋).toNat ≤
      (⌊max 0 cap * max 0 (min 100 lvl2) / 100 /
      (max 0 rate * calculate_slot_duration (all_prices_of raw tom multi))⌋).toNat :=
    maxds_mono _ _ _ hA he
  rcases solar with _ | wh
  · by_cases g3 : (⌊max 0 cap * max 0 (min 100 lvl1) / 100 /
        (max 0 rate * calculate_slot_duration (all_prices_of raw tom multi))⌋).toNat = 0
    · rw [discharge_pre_none_of raw minp _ _ _ mh tom none multi
        (Or.inr (Or.inr (Or.inr (Or.inl ⟨g3, by simp⟩))))]
      exact ⟨by simp, by simpa using discharge_pre_sum_nonneg raw minp _ _ _ mh tom none multi⟩
    · have g3' : ¬ (⌊max 0 cap * max 0 (min 100 lvl2) / 100 /
          (max 0 rate * calculate_slot_duration (all_prices_of raw tom multi))⌋).toNat = 0 := by
        omega
      rw [discharge_pre_eq_legacy raw minp _ _ _ mh tom multi g0 g1 g2 g3 g4,
        discharge_pre_eq_legacy raw minp _ _ _ mh tom multi g0 g1' g2 g3' g4]
      have hfull1 := legacy_go_full (max 0 cap)
        (max 0 cap * max 0 (min 100 lvl1) / 100)
        (max 0 rate * calculate_slot_duration (all_prices_of raw tom multi))
        (calculate_slot_duration (all_prices_of raw tom multi)) he
        ((sortByLe (fun a b => decide (b.value ≤ a.value))
            ((all_prices_of raw tom multi).filter (fun s => decide (minp ≤ s.value)))).take
          (discharge_num_slots mh
            (sortByLe (fun a b => decide (b.value ≤ a.value))
              ((all_prices_of raw tom multi).filter
                (fun s => decide (minp ≤ s.value)))).length
            (⌊max 0 cap * max 0 (min 100 lvl1) / 100 /
              (max 0 rate * calculate_slot_duration (all_prices_of raw tom multi))⌋).toNat
            (calculate_slot_duration (all_prices_of raw tom multi)))) 0
        (legacy_take_bound _ _ _ he (le_of_lt (lt_of_not_le g1)) _ mh)
      have hfull2 := legacy_go_full (max 0 cap)
        (max 0 cap * max 0 (min 100 lvl2) / 100)
        (max 0 rate * calculate_slot_duration (all_prices_of raw tom multi))
        (calculate_slot_duration (all_prices_of raw tom multi)) he
        ((sortByLe (fun a b => decide (b.value ≤ a.value))
            ((all_prices_of raw tom multi).filter (fun s => decide (minp ≤ s.value)))).take
          (discharge_num_slots mh
            (sortByLe (fun a b => decide (b.value ≤ a.value))
              ((all_prices_of raw tom multi).filter
                (fun s => decide (minp ≤ s.value)))).length
            (⌊max 0 cap * max 0 (min 100 lvl2) / 100 /
              (max 0 rate * calculate_slot_duration (all_prices_of raw tom multi))⌋).toNat
            (calculate_slot_duration (all_prices_of raw tom multi)))) 0
        (legacy_take_bound _ _ _ he (le_of_lt (lt_of_not_le g1')) _ mh)
      have hnum := discharge_num_slots_mono mh
        (sortByLe (fun a b => decide (b.value ≤ a.value))
          ((all_prices_of raw tom multi).filter
            (fun s => decide (minp ≤ s.value)))).length _ _
        (calculate_slot_duration (all_prices_of raw tom multi)) hds
      simp only [Option.getD_some]
      constructor
      · rw [hfull1.1, hfull2.1, List.length_take, List.length_take]
        omega
      · rw [hfull1.2, hfull2.2]
        have hlen : ((sortByLe (fun a b => decide (b.value ≤ a.value))
            ((all_prices_of raw tom multi).filter (fun s => decide (minp ≤ s.value)))).take
            (discharge_num_slots mh
              (sortByLe (fun a b => decide (b.value ≤ a.value))
                ((all_prices_of raw tom multi).filter
                  (fun s => decide (minp ≤ s.value)))).length
              (⌊max 0 cap * max 0 (min 100 lvl1) / 100 /
                (max 0 rate * calculate_slot_duration (all_prices_of raw tom multi))⌋).toNat
              (calculate_slot_duration (all_prices_of raw tom multi)))).length ≤
            ((sortByLe (fun a b => decide (b.value ≤ a.value))
            ((all_prices_of raw tom multi).filter (fun s => decide (minp ≤ s.value)))).take
            (discharge_num_slots mh
              (sortByLe (fun a b => decide (b.value ≤ a.value))
                ((all_prices_of raw tom multi).filter
                  (fun s => decide (minp ≤ s.value)))).length
              (⌊max 0 cap * max 0 (min 100 lvl2) / 100 /
                (max 0 rate * calculate_slot_duration (all_prices_of raw tom multi))⌋).toNat
              (calculate_slot_duration (all_prices_of raw tom multi)))).length := by
          rw [List.length_take, List.length_take]
          omega
        have hcast : (((sortByLe (fun a b => decide (b.value ≤ a.value))
            ((all_prices_of raw tom multi).filter (fun s => decide (minp ≤ s.value)))).take
            (discharge_num_slots mh
              (sortByLe (fun a b => decide (b.value ≤ a.value))
                ((all_prices_of raw tom multi).filter
                  (fun s => decide (minp ≤ s.value)))).length
              (⌊max 0 cap * max 0 (min 100 lvl1) / 100 /
                (max 0 rate * calculate_slot_duration (all_prices_of raw tom multi))⌋).toNat
              (calculate_slot_duration (all_prices_of raw tom multi)))).length : ℚ) ≤
            (((sortByLe (fun a b => decide (b.value ≤ a.value))
            ((all_prices_of raw tom multi).filter (fun s => decide (minp ≤ s.value)))).take
            (discharge_num_slots mh
              (sortByLe (fun a b => decide (b.value ≤ a.value))
                ((all_prices_of raw tom multi).filter
                  (fun s => decide (minp ≤ s.value)))).length
              (⌊max 0 cap * max 0 (min 100 lvl2) / 100 /
                (max 0 rate * calculate_slot_duration (all_prices_of raw tom multi))⌋).toNat
              (calculate_slot_duration (all_prices_of raw tom multi)))).length : ℚ) := by
          exact_mod_cast hlen
        exact mul_le_mul_of_nonneg_left hcast (le_of_lt he)
  · by_cases g3 : (⌊max 0 cap * max 0 (min 100 lvl1) / 100 /
        (max 0 rate * calculate_slot_duration (all_prices_of raw tom multi))⌋).toNat = 0 ∧
        (if (some wh : Option (List (ℚ × ℚ))).isSome = true ∧ multi = true then
          estimate_solar_impact (all_prices_of raw tom multi) (some wh) (max 0 cap)
            (max 0 (min 100 lvl1))
        else []) = []
    · rw [discharge_pre_none_of raw minp _ _ _ mh tom (some wh) multi
        (Or.inr (Or.inr (Or.inr (Or.inl g3))))]
      exact ⟨by simp, by simpa using
        discharge_pre_sum_nonneg raw minp _ _ _ mh tom (some wh) multi⟩
    · have g3' : ¬ ((⌊max 0 cap * max 0 (min 100 lvl2) / 100 /
          (max 0 rate * calculate_slot_duration (all_prices_of raw tom multi))⌋).toNat = 0 ∧
          (if (some wh : Option (List (ℚ × ℚ))).isSome = true ∧ multi = true then
            estimate_solar_impact (all_prices_of raw tom multi) (some wh) (max 0 cap)
              (max 0 (min 100 lvl2))
          else []) = []) := by
        intro hc
        refine g3 ⟨by omega, ?_⟩
        by_cases hcond : (some wh : Option (List (ℚ × ℚ))).isSome = true ∧ multi = true
        · rw [if_pos hcond] at hc ⊢
          exact (estimate_empty_iff _ _ _ _ _).mp hc.2
        · rw [if_neg hcond]
      have hcount : ∀ b1 b2 : ℚ, b1 ≤ b2 →
          (project_battery_state
            ((all_prices_of raw tom multi).filter (fun s => decide (minp ≤ s.value)))
            b1 (max 0 cap) (max 0 rate)
            (calculate_slot_duration (all_prices_of raw tom multi)) (some wh)).length ≤
          (project_battery_state
            ((all_prices_of raw tom multi).filter (fun s => decide (minp ≤ s.value)))
            b2 (max 0 cap) (max 0 rate)
            (calculate_slot_duration (all_prices_of raw tom multi)) (some wh)).length := by
        intro b1 b2 hb
        rw [project_battery_state, project_battery_state]
        simpa using project_go_count_mono (max 0 cap) (max 0 rate)
          (calculate_slot_duration (all_prices_of raw tom multi)) (some wh) (le_of_lt he)
          _ none b1 b2 0 (by simpa using hb)
      by_cases g5 : project_battery_state
          ((all_prices_of raw tom multi).filter (fun s => decide (minp ≤ s.value)))
          (max 0 cap * max 0 (min 100 lvl1) / 100) (max 0 cap) (max 0 rate)
          (calculate_slot_duration (all_prices_of raw tom multi)) (some wh) = []
      · rw [discharge_pre_none_of raw minp _ _ _ mh tom (some wh) multi
          (Or.inr (Or.inr (Or.inr (Or.inr (Or.inr ⟨by simp, g5⟩)))))]
        exact ⟨by simp, by simpa using
          discharge_pre_sum_nonneg raw minp _ _ _ mh tom (some wh) multi⟩
      · have hlen12 := hcount _ _ hA
        have g5' : ¬ project_battery_state
            ((all_prices_of raw tom multi).filter (fun s => decide (minp ≤ s.value)))
            (max 0 cap * max 0 (min 100 lvl2) / 100) (max 0 cap) (max 0 rate)
            (calculate_slot_duration (all_prices_of raw tom multi)) (some wh) = [] := by
          intro hc
          have h0 := hlen12
          rw [hc] at h0
          exact g5 (by simpa using h0)
        rw [discharge_pre_eq_solar raw minp _ _ _ mh tom wh multi g0 g1 g2 g3 g4 g5,
          discharge_pre_eq_solar raw minp _ _ _ mh tom wh multi g0 g1' g2 g3' g4 g5']
        simp only [Option.getD_some]
        have hpslen : (sortByLe (fun a b => decide (b.price ≤ a.price))
            (project_battery_state
              ((all_prices_of raw tom multi).filter (fun s => decide (minp ≤ s.value)))
              (max 0 cap * max 0 (min 100 lvl1) / 100) (max 0 cap) (max 0 rate)
              (calculate_slot_duration (all_prices_of raw tom multi)) (some wh))).length ≤
            (sortByLe (fun a b => decide (b.price ≤ a.price))
            (project_battery_state
              ((all_prices_of raw tom multi).filter (fun s => decide (minp ≤ s.value)))
              (max 0 cap * max 0 (min 100 lvl2) / 100) (max 0 cap) (max 0 rate)
              (calculate_slot_duration (all_prices_of raw tom multi)) (some wh))).length := by
          rw [length_sortByLe, length_sortByLe]
          exact hlen12
        have hsel := discharge_select_solar_length_mono
          (calculate_slot_duration (all_prices_of raw tom multi)) mh _ _ hpslen
        refine ⟨hsel, ?_⟩
        have hmem1 : ∀ q ∈ sortByLe (fun a b => decide (b.price ≤ a.price))
            (project_battery_state
              ((all_prices_of raw tom multi).filter (fun s => decide (minp ≤ s.value)))
              (max 0 cap * max 0 (min 100 lvl1) / 100) (max 0 cap) (max 0 rate)
              (calculate_slot_duration (all_prices_of raw tom multi)) (some wh)),
            q.energy_kwh =
              max 0 rate * calculate_slot_duration (all_prices_of raw tom multi) := by
          intro q hq
          have hq' := (mem_sortByLe _ q _).mp hq
          rw [project_battery_state] at hq'
          exact (project_go_mem _ _ _ _ _ _ _ q hq').2
        have hmem2 : ∀ q ∈ sortByLe (fun a b => decide (b.price ≤ a.price))
            (project_battery_state
              ((all_prices_of raw tom multi).filter (fun s => decide (minp ≤ s.value)))
              (max 0 cap * max 0 (min 100 lvl2) / 100) (max 0 cap) (max 0 rate)
              (calculate_slot_duration (all_prices_of raw tom multi)) (some wh)),
            q.energy_kwh =
              max 0 rate * calculate_slot_duration (all_prices_of raw tom multi) := by
          intro q hq
          have hq' := (mem_sortByLe _ q _).mp hq
          rw [project_battery_state] at hq'
          exact (project_go_mem _ _ _ _ _ _ _ q hq').2
        rw [discharge_select_solar_energy
            (calculate_slot_duration (all_prices_of raw tom multi))
            (max 0 rate * calculate_slot_duration (all_prices_of raw tom multi)) mh _ hmem1,
          discharge_select_solar_energy
            (calculate_slot_duration (all_prices_of raw tom multi))
            (max 0 rate * calculate_slot_duration (all_prices_of raw tom multi)) mh _ hmem2]
        have hcast : ((discharge_select_solar
            (calculate_slot_duration (all_prices_of raw tom multi)) mh
            (sortByLe (fun a b => decide (b.price ≤ a.price))
              (project_battery_state
                ((all_prices_of raw tom multi).filter (fun s => decide (minp ≤ s.value)))
                (max 0 cap * max 0 (min 100 lvl1) / 100) (max 0 cap) (max 0 rate)
                (calculate_slot_duration (all_prices_of raw tom multi))
                (some wh)))).length : ℚ) ≤
            ((discharge_select_solar
            (calculate_slot_duration (all_prices_of raw tom multi)) mh
            (sortByLe (fun a b => decide (b.price ≤ a.price))
              (project_battery_state
                ((all_prices_of raw tom multi).filter (fun s => decide (minp ≤ s.value)))
                (max 0 cap * max 0 (min 100 lvl2) / 100) (max 0 cap) (max 0 rate)
                (calculate_slot_duration (all_prices_of raw tom multi))
                (some wh)))).length : ℚ) := by
          exact_mod_cast hsel
        exact mul_le_mul_of_nonneg_left hcast (le_of_lt he)

theorem C6_counterexample :
    (67 : ℚ) ≤ 100 ∧
    (select_discharge_slots ⟨[]⟩ 0
        [⟨0, 1, 5/10⟩, ⟨1, 2, 4/10⟩, ⟨2, 3, 45/100⟩]
        (3/10) 15 67 5 none [] none false 25).1.length = 2 ∧
    (select_discharge_slots ⟨[]⟩ 0
        [⟨0, 1, 5/10⟩, ⟨1, 2, 4/10⟩, ⟨2, 3, 45/100⟩]
        (3/10) 15 100 5 none [] none false 25).1.length = 1 := by
  refine ⟨by norm_num, ?_, ?_⟩ <;>
    norm_num [select_discharge_slots, validate_inputs, clean_expired_cache, get_cached,
      select_discharge_compute, discharge_selected_pre, discharge_num_slots,
      discharge_select_solar, all_prices_of, estimate_solar_impact,
      calculate_slot_duration, sortByLe, insertByLe, legacy_go, lookupLevel, legacySel,
      combine_consecutive_slots, combine_go, merge_slot_group, set_cached, List.filter,
      List.cons_ne_nil, Option.map_some', Option.map_none']

theorem C6_battery_level_monotonicity_witness :
    (50 : ℚ) ≤ 60 ∧
    (((discharge_selected_pre [⟨0, 1, 1/2⟩] 0 (validate_inputs 10 50 5).1
        (validate_inputs 10 50 5).2.1 (validate_inputs 10 50 5).2.2 none [] none
        false).getD []).length ≤
      ((discharge_selected_pre [⟨0, 1, 1/2⟩] 0 (validate_inputs 10 60 5).1
        (validate_inputs 10 60 5).2.1 (validate_inputs 10 60 5).2.2 none [] none
        false).getD []).length ∧
    (((discharge_selected_pre [⟨0, 1, 1/2⟩] 0 (validate_inputs 10 50 5).1
        (validate_inputs 10 50 5).2.1 (validate_inputs 10 50 5).2.2 none [] none
        false).getD []).map SelSlot.energy_kwh).sum ≤
      (((discharge_selected_pre [⟨0, 1, 1/2⟩] 0 (validate_inputs 10 60 5).1
        (validate_inputs 10 60 5).2.1 (validate_inputs 10 60 5).2.2 none [] none
        false).getD []).map SelSlot.energy_kwh).sum) :=
  ⟨by norm_num,
    C6_battery_level_monotonicity [⟨0, 1, 1/2⟩] 0 10 50 60 5 none [] none false (by norm_num)⟩

/-! ### The projector chain invariant (for the reserve claim) -/

theorem solar_credit_le_cap (cap : ℚ) (prev : Option PriceSlot)
    (solar : Option (List (ℚ × ℚ))) (s : PriceSlot) (b : ℚ) (hb : b ≤ cap) :
    solar_credit cap prev solar s b ≤ cap := by
  rcases prev with _ | p <;> rcases solar with _ | wh <;>
    simp only [solar_credit] <;> try exact hb
  split
  · exact min_le_right _ _
  · exact hb

theorem solar_credit_ge (cap : ℚ) (prev : Option PriceSlot)
    (solar : Option (List (ℚ × ℚ))) (s : PriceSlot) (b : ℚ) (hb : b ≤ cap) :
    b ≤ solar_credit cap prev solar s b := by
  rcases prev with _ | p <;> rcases solar with _ | wh <;>
    simp only [solar_credit] <;> try exact le_refl b
  split
  · exact le_min (by linarith) hb
  · exact le_refl b

theorem project_go_shape (cap rate dur : ℚ) (solar : Option (List (ℚ × ℚ))) :
    ∀ (l : List PriceSlot) (prev : Option PriceSlot) (b : ℚ) (q : ProjSlot),
      q ∈ project_go cap rate dur solar prev l b →
      ∃ t ∈ l, q.start = t.start ∧ q.stop = t.stop := by
  intro l
  induction l with
  | nil => intro prev b q hq; simp [project_go] at hq
  | cons s rest ih =>
    intro prev b q hq
    rw [project_go] at hq
    split at hq
    · rcases List.mem_cons.mp hq with rfl | hq'
      · exact ⟨s, List.mem_cons_self .., rfl, rfl⟩
      · rcases ih _ _ _ hq' with ⟨t, ht, h1, h2⟩
        exact ⟨t, List.mem_cons_of_mem _ ht, h1, h2⟩
    · rcases ih _ _ _ hq with ⟨t, ht, h1, h2⟩
      exact ⟨t, List.mem_cons_of_mem _ ht, h1, h2⟩

theorem project_go_head_ge (cap rate dur : ℚ) (solar : Option (List (ℚ × ℚ))) :
    ∀ (l : List PriceSlot) (prev : Option PriceSlot) (b : ℚ) (q : ProjSlot)
      (t : List ProjSlot),
      b ≤ cap → project_go cap rate dur solar prev l b = q :: t →
      b ≤ q.battery_before := by
  intro l
  induction l with
  | nil => intro prev b q t _ h; simp [project_go] at h
  | cons s rest ih =>
    intro prev b q t hb h
    rw [project_go] at h
    split at h
    · have hq := (List.cons.injEq _ _ _ _).mp h
      rw [← hq.1]
      exact solar_credit_ge cap prev solar s b hb
    · exact le_trans (solar_credit_ge cap prev solar s b hb)
        (ih _ _ _ _ (solar_credit_le_cap cap prev solar s b hb) h)

theorem project_go_time_pairwise (cap rate dur : ℚ) (solar : Option (List (ℚ × ℚ))) :
    ∀ (l : List PriceSlot) (prev : Option PriceSlot) (b : ℚ),
      l.Pairwise (fun a b => a.stop ≤ b.start) →
      (project_go cap rate dur solar prev l b).Pairwise
        (fun p q => p.stop ≤ q.start) := by
  intro l
  induction l with
  | nil => intro prev b _; simp [project_go]
  | cons s rest ih =>
    intro prev b hp
    rcases List.pairwise_cons.mp hp with ⟨hs, hrest⟩
    rw [project_go]
    split
    · refine List.pairwise_cons.mpr ⟨?_, ih _ _ hrest⟩
      intro q hq
      rcases project_go_shape cap rate dur solar _ _ _ q hq with ⟨t, ht, h1, _⟩
      simpa [h1] using hs t ht
    · exact ih _ _ hrest

theorem project_go_chain (cap rate dur : ℚ) (solar : Option (List (ℚ × ℚ)))
    (hrd : 0 ≤ rate * dur) :
    ∀ (l : List PriceSlot) (prev : Option PriceSlot) (b : ℚ),
      l.Pairwise (fun a b => a.stop ≤ b.start) →
      (∀ s ∈ l, s.start < s.stop) →
      b ≤ cap →
      ∀ p ∈ project_go cap rate dur solar prev l b,
      ∀ q ∈ project_go cap rate dur solar prev l b,
        p.stop = q.start → p.battery_after ≤ q.battery_before := by
  intro l
  induction l with
  | nil => intro prev b _ _ _ p hp; simp [project_go] at hp
  | cons s rest ih =>
    intro prev b hpw hlt hb p hp q hq hpq
    rcases List.pairwise_cons.mp hpw with ⟨hs, hrest⟩
    have hslt : s.start < s.stop := hlt s (List.mem_cons_self ..)
    have hlt' : ∀ t ∈ rest, t.start < t.stop :=
      fun t ht => hlt t (List.mem_cons_of_mem _ ht)
    have hcle : solar_credit cap prev solar s b ≤ cap :=
      solar_credit_le_cap cap prev solar s b hb
    rw [project_go] at hp hq
    split at hp
    · rw [if_pos (by assumption)] at hq
      rcases List.mem_cons.mp hp with rfl | hp'
      · rcases List.mem_cons.mp hq with rfl | hq'
        · exact absurd hpq (by simpa using ne_of_gt hslt)
        · rcases hout : project_go cap rate dur solar (some s) rest
            (solar_credit cap prev solar s b - rate * dur) with _ | ⟨q0, t'⟩
          · rw [hout] at hq'; simp at hq'
          · rw [hout] at hq'
            rcases List.mem_cons.mp hq' with rfl | hq''
            · have := project_go_head_ge cap rate dur solar rest (some s)
                (solar_credit cap prev solar s b - rate * dur) q t'
                (by linarith) hout
              simpa using this
            · exfalso
              have hpair := project_go_time_pairwise cap rate dur solar rest (some s)
                (solar_credit cap prev solar s b - rate * dur) hrest
              rw [hout] at hpair
              rcases List.pairwise_cons.mp hpair with ⟨h0, _⟩
              have hq0q : q0.stop ≤ q.start := h0 q hq''
              have hq0m : q0 ∈ project_go cap rate dur solar (some s) rest
                  (solar_credit cap prev solar s b - rate * dur) := by
                rw [hout]; exact List.mem_cons_self ..
              rcases project_go_shape cap rate dur solar _ _ _ q0 hq0m with
                ⟨t0, ht0, he1, he2⟩
              have ht0s : s.stop ≤ t0.start := hs t0 ht0
              have ht0lt : t0.start < t0.stop := hlt' t0 ht0
              have : s.stop < q.start := by
                rw [he2] at hq0q
                linarith
              simp only at hpq
              linarith [this, hpq.symm.le]
      · rcases List.mem_cons.mp hq with rfl | hq'
        · exfalso
          rcases project_go_shape cap rate dur solar _ _ _ p hp' with ⟨t0, ht0, he1, he2⟩
          have ht0s : s.stop ≤ t0.start := hs t0 ht0
          have ht0lt : t0.start < t0.stop := hlt' t0 ht0
          simp only at hpq
          rw [he2] at hpq
          linarith [hpq.le]
        · exact ih (some s) (solar_credit cap prev solar s b - rate * dur)
            hrest hlt' (by linarith) p hp' q hq' hpq
    · rw [if_neg (by assumption)] at hq
      exact ih (some s) (solar_credit cap prev solar s b)
        hrest hlt' hcle p hp q hq hpq

theorem group_chain (dur : ℚ) (ps : List ProjSlot)
    (hmem : ∀ p ∈ ps, p.battery_after = p.battery_before - p.energy_kwh)
    (hchain : ∀ p ∈ ps, ∀ q ∈ ps, p.stop = q.start → p.battery_after ≤ q.battery_before) :
    ∀ (t : List SelSlot) (x : SelSlot),
      (x :: t).Chain' (fun a b => a.stop = b.start) →
      (∀ y ∈ x :: t, ∃ p ∈ ps, y = projToSel dur p) →
      x.battery_before.getD 0 - ((x :: t).map SelSlot.energy_kwh).sum ≤
        ((x :: t).getLast (by simp)).battery_after.getD 0 := by
  intro t
  induction t with
  | nil =>
    intro x _ hy
    rcases hy x (List.mem_cons_self ..) with ⟨p, hp, rfl⟩
    simp only [projToSel, List.map_cons, List.map_nil, List.sum_cons, List.sum_nil,
      List.getLast_singleton, Option.getD_some, add_zero]
    rw [hmem p hp]
  | cons y t' ih =>
    intro x hch hy
    rcases List.chain'_cons.mp hch with ⟨hxy, hch'⟩
    have hy' : ∀ z ∈ y :: t', ∃ p ∈ ps, z = projToSel dur p :=
      fun z hz => hy z (List.mem_cons_of_mem _ hz)
    have hih := ih y hch' hy'
    rcases hy x (List.mem_cons_self ..) with ⟨p, hp, hxp⟩
    rcases hy' y (List.mem_cons_self ..) with ⟨q, hq, hyq⟩
    have hpq : p.stop = q.start := by
      have h1 : x.stop = p.stop := by rw [hxp]; rfl
      have h2 : y.start = q.start := by rw [hyq]; rfl
      rw [← h1, ← h2]; exact hxy
    have hlink : p.battery_after ≤ q.battery_before := hchain p hp q hq hpq
    have hx1 : x.battery_before.getD 0 = p.battery_before := by rw [hxp]; rfl
    have hx2 : x.energy_kwh = p.energy_kwh := by rw [hxp]; rfl
    have hy1 : y.battery_before.getD 0 = q.battery_before := by rw [hyq]; rfl
    have hpa : p.battery_after = p.battery_before - p.energy_kwh := hmem p hp
    have hgl : ((x :: y :: t').getLast (by simp) : SelSlot) =
        ((y :: t').getLast (by simp)) := by
      rw [List.getLast_cons]
    rw [hgl]
    simp only [List.map_cons, List.sum_cons] at hih ⊢
    rw [hy1] at hih
    rw [hx1, hx2]
    linarith

theorem merge_group_reserve (res cap : ℚ) (hcap : ¬ cap = 0) :
    ∀ (g : List SelSlot) (hg : g ≠ []),
      (∀ y ∈ g, (y.battery_before).isSome ∧ (y.battery_after).isSome ∧
        y.clamped = false ∧
        y.battery_after.getD 0 = y.battery_before.getD 0 - y.energy_kwh) →
      0 < (g.map SelSlot.energy_kwh).sum →
      (g.head hg).battery_before.getD 0 - (g.map SelSlot.energy_kwh).sum ≤
        (g.getLast hg).battery_after.getD 0 →
      ∀ a, (merge_slot_group g res cap).battery_after = some a →
        cap * res / 100 ≤ a ∧
        ((merge_slot_group g res cap).clamped = true → a = cap * res / 100) := by
  intro g hg hall hpos htel a ha
  match g, hg with
  | [x], _ =>
    rcases hall x (List.mem_cons_self ..) with ⟨hb, haf, hcl, heq⟩
    simp only [List.map_cons, List.map_nil, List.sum_cons, List.sum_nil, add_zero] at hpos
    simp only [List.head_cons, List.getLast_singleton, List.map_cons, List.map_nil,
      List.sum_cons, List.sum_nil, add_zero] at htel
    rw [merge_slot_group] at ha ⊢
    rw [if_pos ⟨hcap, haf⟩] at ha ⊢
    by_cases hlow : x.battery_after.getD 0 < cap * res / 100
    · rw [if_pos hlow] at ha ⊢
      have hin : max 0 (x.battery_before.getD 0 - cap * res / 100) < x.energy_kwh := by
        rw [max_lt_iff]
        exact ⟨hpos, by linarith⟩
      rw [if_pos hin] at ha ⊢
      simp only at ha ⊢
      rcases Option.some_injective _ ha with rfl
      exact ⟨le_refl _, fun _ => rfl⟩
    · rw [if_neg hlow] at ha ⊢
      rcases Option.isSome_iff_exists.mp haf with ⟨a0, ha0⟩
      rw [ha0] at ha
      rcases Option.some_injective _ ha with rfl
      refine ⟨by rw [ha0] at hlow; simpa using not_lt.mp hlow, fun hc => ?_⟩
      rw [hcl] at hc
      exact absurd hc (by simp)
  | x :: x2 :: t, _ =>
    have hlast_mem : ((x2 :: t).getLast (by simp) : SelSlot) ∈ x :: x2 :: t :=
      List.mem_cons_of_mem _ (List.getLast_mem _)
    rcases hall _ hlast_mem with ⟨_, haf, _, _⟩
    rcases Option.isSome_iff_exists.mp haf with ⟨a0, ha0⟩
    have hgl : ((x :: x2 :: t).getLast (by simp) : SelSlot) =
        ((x2 :: t).getLast (by simp)) := by rw [List.getLast_cons]
    rw [hgl, ha0] at htel
    simp only [Option.getD_some, List.head_cons] at htel
    rw [merge_slot_group] at ha ⊢
    simp only [merge_multi, ha0] at ha ⊢
    rw [if_pos hcap] at ha ⊢
    by_cases hlow : a0 < cap * res / 100
    · rw [if_pos hlow] at ha ⊢
      have hin : max 0 (x.battery_before.getD 0 - cap * res / 100) <
          ((x :: x2 :: t).map SelSlot.energy_kwh).sum := by
        rw [max_lt_iff]
        exact ⟨hpos, by linarith⟩
      rw [if_pos hin] at ha ⊢
      simp only [merge_base] at ha ⊢
      rcases Option.some_injective _ ha with rfl
      exact ⟨le_refl _, fun _ => rfl⟩
    · rw [if_neg hlow] at ha ⊢
      simp only [merge_base] at ha ⊢
      rcases Option.some_injective _ ha with rfl
      exact ⟨not_lt.mp hlow, fun hc => absurd hc (by simp)⟩

theorem combine_go_groups (res cap : ℚ) :
    ∀ (rest curRev : List SelSlot), curRev ≠ [] →
      curRev.reverse.Chain' (fun a b => a.stop = b.start) →
      ∀ r ∈ combine_go res cap curRev rest,
        ∃ g, g ≠ [] ∧ g.Chain' (fun a b => a.stop = b.start) ∧
          (∀ x ∈ g, x ∈ curRev ∨ x ∈ rest) ∧ r = merge_slot_group g res cap := by
  intro rest
  induction rest with
  | nil =>
    intro curRev hne hchn r hr
    rw [combine_go] at hr
    rcases List.mem_singleton.mp hr with rfl
    exact ⟨curRev.reverse, by simpa using hne, hchn,
      fun x hx => Or.inl (by simpa using hx), rfl⟩
  | cons s rest ih =>
    intro curRev hne hchn r hr
    match curRev, hne with
    | lastS :: cr, _ =>
      rw [combine_go] at hr
      by_cases hadj : lastS.stop = s.start
      · rw [if_pos hadj] at hr
        have hch2 : (s :: lastS :: cr).reverse.Chain'
            (fun a b => a.stop = b.start) := by
          rw [List.reverse_cons]
          rw [List.chain'_append]
          refine ⟨hchn, List.chain'_singleton s, ?_⟩
          intro x hx y hy
          rw [List.getLast?_reverse] at hx
          simp only [List.head?_cons, Option.mem_def, Option.some.injEq] at hx hy
          rw [← hx, ← hy]
          exact hadj
        rcases ih (s :: lastS :: cr) (by simp) hch2 r hr with ⟨g, h1, h2, h3, h4⟩
        refine ⟨g, h1, h2, fun x hx => ?_, h4⟩
        rcases h3 x hx with hxc | hxr
        · rcases List.mem_cons.mp hxc with rfl | hxc'
          · exact Or.inr (List.mem_cons_self ..)
          · exact Or.inl hxc'
        · exact Or.inr (List.mem_cons_of_mem _ hxr)
      · rw [if_neg hadj] at hr
        rcases List.mem_cons.mp hr with rfl | hr'
        · exact ⟨(lastS :: cr).reverse, by simp, hchn,
            fun x hx => Or.inl (List.mem_reverse.mp hx), rfl⟩
        · rcases ih [s] (by simp) (by simp) r hr' with ⟨g, h1, h2, h3, h4⟩
          refine ⟨g, h1, h2, fun x hx => ?_, h4⟩
          rcases h3 x hx with hxc | hxr
          · rcases List.mem_singleton.mp hxc with rfl
            exact Or.inr (List.mem_cons_self ..)
          · exact Or.inr (List.mem_cons_of_mem _ hxr)

theorem combine_groups (res cap : ℚ) (sel : List SelSlot) :
    ∀ r ∈ combine_consecutive_slots sel res cap,
      ∃ g, g ≠ [] ∧ g.Chain' (fun a b => a.stop = b.start) ∧
        (∀ x ∈ g, x ∈ sel) ∧ r = merge_slot_group g res cap := by
  intro r hr
  rw [combine_consecutive_slots] at hr
  rcases hsort : sortByLe (fun a b => decide (a.start ≤ b.start)) sel with _ | ⟨s, rest⟩
  · rw [hsort] at hr
    simp at hr
  · rw [hsort] at hr
    simp only at hr
    rcases combine_go_groups res cap rest [s] (by simp) (by simp) r hr with
      ⟨g, h1, h2, h3, h4⟩
    refine ⟨g, h1, h2, fun x hx => ?_, h4⟩
    have hx' : x ∈ s :: rest := by
      rcases h3 x hx with hc | hc
      · rcases List.mem_singleton.mp hc with rfl
        exact List.mem_cons_self ..
      · exact List.mem_cons_of_mem _ hc
    rw [← hsort] at hx'
    exact (mem_sortByLe _ x sel).mp hx'

theorem merge_slot_group_after_none (res cap : ℚ) :
    ∀ g : List SelSlot, (∀ x ∈ g, x.battery_after = none) →
      (merge_slot_group g res cap).battery_after = none := by
  intro g hall
  match g with
  | [] => rfl
  | [x] =>
    rw [merge_slot_group]
    rw [if_neg (fun hc => by
      have := hc.2
      rw [hall x (List.mem_cons_self ..)] at this
      simp at this)]
    exact hall x (List.mem_cons_self ..)
  | x :: x2 :: t =>
    have hlast : ((x2 :: t).getLast (by simp) : SelSlot).battery_after = none :=
      hall _ (List.mem_cons_of_mem _ (List.getLast_mem _))
    rw [merge_slot_group]
    simp only [merge_multi, hlast, merge_base]

theorem legacy_go_after_none (cap avail e dur : ℚ) (est : List (ℚ × ℚ)) :
    ∀ (l : List PriceSlot) (tot : ℚ) (p : SelSlot),
      p ∈ legacy_go cap avail e dur est l tot → p.battery_after = none := by
  intro l
  induction l with
  | nil => intro tot p hp; simp [legacy_go] at hp
  | cons s rest ih =>
    intro tot p hp
    rw [legacy_go] at hp
    split at hp
    · rcases List.mem_cons.mp hp with rfl | hp'
      · rfl
      · exact ih _ _ hp'
    · exact ih _ _ hp

theorem discharge_pre_after_none (raw : List PriceSlot) (minp cap lvl rate : ℚ)
    (mh : Option ℚ) (tom : List PriceSlot) (multi : Bool) (sel0 : List SelSlot)
    (h : discharge_selected_pre raw minp cap lvl rate mh tom none multi = some sel0) :
    ∀ x ∈ sel0, x.battery_after = none := by
  by_cases g0 : raw = []
  · rw [discharge_pre_none_of raw minp cap lvl rate mh tom none multi (Or.inl g0)] at h
    exact absurd h (by simp)
  by_cases g1 : cap * lvl / 100 ≤ 0
  · rw [discharge_pre_none_of raw minp cap lvl rate mh tom none multi
      (Or.inr (Or.inl g1))] at h
    exact absurd h (by simp)
  by_cases g2 : rate * calculate_slot_duration (all_prices_of raw tom multi) ≤ 0
  · rw [discharge_pre_none_of raw minp cap lvl rate mh tom none multi
      (Or.inr (Or.inr (Or.inl g2)))] at h
    exact absurd h (by simp)
  by_cases g3 : ⌊cap * lvl / 100 /
      (rate * calculate_slot_duration (all_prices_of raw tom multi))⌋.toNat = 0
  · rw [discharge_pre_none_of raw minp cap lvl rate mh tom none multi
      (Or.inr (Or.inr (Or.inr (Or.inl ⟨g3, by simp⟩))))] at h
    exact absurd h (by simp)
  by_cases g4 : (all_prices_of raw tom multi).filter (fun s => decide (minp ≤ s.value)) = []
  · rw [discharge_pre_none_of raw minp cap lvl rate mh tom none multi
      (Or.inr (Or.inr (Or.inr (Or.inr (Or.inl g4)))))] at h
    exact absurd h (by simp)
  rw [discharge_pre_eq_legacy raw minp cap lvl rate mh tom multi g0 g1 g2 g3 g4] at h
  rcases Option.some_injective _ h with rfl
  exact fun x hx => legacy_go_after_none _ _ _ _ _ _ _ x hx

/-- C1 (amended): on a chronological, non-overlapping price timeline (no two
slots overlap, every slot has positive length — the data-model invariant the
integration's upstream parsing provides) and with positive capacity, every
period returned by `select_discharge_slots` (fresh optimizer) that carries
battery bookkeeping ends at or above the reserve line
`capacity * reserve_percent / 100`, and a clamped (`partial_discharge`)
period stops exactly at it.  Without the timeline hypothesis the invariant
fails (see the counterexample with a duplicated slot). -/
theorem C1_reserve_invariant_amended (now : ℚ) (raw : List PriceSlot)
    (minp cap lvl rate : ℚ) (mh : Option ℚ) (tom : List PriceSlot)
    (solar : Option (List (ℚ × ℚ))) (multi : Bool) (res : ℚ)
    (hcap : 0 < cap)
    (hch : Chrono (all_prices_of raw tom multi)) :
    ∀ r ∈ (select_discharge_slots ⟨[]⟩ now raw minp cap lvl rate mh tom solar
        multi res).1,
      ∀ a, r.battery_after = some a →
        cap * res / 100 ≤ a ∧ (r.clamped = true → a = cap * res / 100) := by
  have hmax : max 0 cap = cap := max_eq_right hcap.le
  have hres : (select_discharge_slots ⟨[]⟩ now raw minp cap lvl rate mh tom solar
      multi res).1 =
      (select_discharge_compute raw minp (validate_inputs cap lvl rate).1
        (validate_inputs cap lvl rate).2.1 (validate_inputs cap lvl rate).2.2 mh tom
        solar multi res).getD [] := by
    rcases hc : select_discharge_compute raw minp (validate_inputs cap lvl rate).1
        (validate_inputs cap lvl rate).2.1 (validate_inputs cap lvl rate).2.2 mh tom
        solar multi res with _ | r0 <;>
      simp [select_discharge_slots, clean_expired_cache, get_cached, hc]
  intro r hr a ha
  rw [hres] at hr
  rcases hc : select_discharge_compute raw minp (validate_inputs cap lvl rate).1
      (validate_inputs cap lvl rate).2.1 (validate_inputs cap lvl rate).2.2 mh tom
      solar multi res with _ | sel
  · rw [hc] at hr
    simp at hr
  · rw [hc] at hr
    simp only [Option.getD_some] at hr
    rw [select_discharge_compute] at hc
    rcases Option.map_eq_some'.mp hc with ⟨sel0, hpre, rfl⟩
    simp only [validate_inputs] at hpre hr
    rw [hmax] at hpre hr
    rcases combine_groups res cap sel0 r hr with ⟨g, hgne, hgch, hgmem, rfl⟩
    rcases solar with _ | wh
    · have hnone := merge_slot_group_after_none res cap g
        (fun x hx => discharge_pre_after_none raw minp cap _ _ mh tom multi sel0 hpre
          x (hgmem x hx))
      rw [hnone] at ha
      exact absurd ha (by simp)
    · by_cases g0 : raw = []
      · rw [discharge_pre_none_of raw minp cap _ _ mh tom (some wh) multi
          (Or.inl g0)] at hpre
        exact absurd hpre (by simp)
      by_cases g1 : cap * (max 0 (min 100 lvl)) / 100 ≤ 0
      · rw [discharge_pre_none_of raw minp cap _ _ mh tom (some wh) multi
          (Or.inr (Or.inl g1))] at hpre
        exact absurd hpre (by simp)
      by_cases g2 : (max 0 rate) * calculate_slot_duration (all_prices_of raw tom multi) ≤ 0
      · rw [discharge_pre_none_of raw minp cap _ _ mh tom (some wh) multi
          (Or.inr (Or.inr (Or.inl g2)))] at hpre
        exact absurd hpre (by simp)
      by_cases g3 : ⌊cap * (max 0 (min 100 lvl)) / 100 /
          ((max 0 rate) * calculate_slot_duration (all_prices_of raw tom multi))⌋.toNat = 0 ∧
          (if (some wh : Option (List (ℚ × ℚ))).isSome = true ∧ multi = true then
            estimate_solar_impact (all_prices_of raw tom multi) (some wh) cap
              (max 0 (min 100 lvl))
          else []) = []
      · rw [discharge_pre_none_of raw minp cap _ _ mh tom (some wh) multi
          (Or.inr (Or.inr (Or.inr (Or.inl g3))))] at hpre
        exact absurd hpre (by simp)
      by_cases g4 : (all_prices_of raw tom multi).filter
          (fun s => decide (minp ≤ s.value)) = []
      · rw [discharge_pre_none_of raw minp cap _ _ mh tom (some wh) multi
          (Or.inr (Or.inr (Or.inr (Or.inr (Or.inl g4)))))] at hpre
        exact absurd hpre (by simp)
      by_cases g5 : project_battery_state
          ((all_prices_of raw tom multi).filter (fun s => decide (minp ≤ s.value)))
          (cap * (max 0 (min 100 lvl)) / 100) cap (max 0 rate)
          (calculate_slot_duration (all_prices_of raw tom multi)) (some wh) = []
      · rw [discharge_pre_none_of raw minp cap _ _ mh tom (some wh) multi
          (Or.inr (Or.inr (Or.inr (Or.inr (Or.inr ⟨by simp, g5⟩)))))] at hpre
        exact absurd hpre (by simp)
      rw [discharge_pre_eq_solar raw minp cap _ _ mh tom wh multi
        g0 g1 g2 g3 g4 g5] at hpre
      rcases Option.some_injective _ hpre with rfl
      have hE : 0 < (max 0 rate) *
          calculate_slot_duration (all_prices_of raw tom multi) := lt_of_not_le g2
      have hL100 : max 0 (min 100 lvl) ≤ 100 := max_le (by norm_num) (min_le_left _ _)
      have hble : cap * (max 0 (min 100 lvl)) / 100 ≤ cap := by
        have := mul_le_mul_of_nonneg_left hL100 hcap.le
        linarith
      have hprof_pw : ((all_prices_of raw tom multi).filter
          (fun s => decide (minp ≤ s.value))).Pairwise
          (fun a b => a.stop ≤ b.start) :=
        hch.1.sublist (List.filter_sublist _)
      have hprof_lt : ∀ s ∈ (all_prices_of raw tom multi).filter
          (fun s => decide (minp ≤ s.value)), s.start < s.stop :=
        fun s hs => hch.2 s (List.mem_of_mem_filter hs)
      have hsort_id : sortByLe (fun a b => decide (a.start ≤ b.start))
          ((all_prices_of raw tom multi).filter (fun s => decide (minp ≤ s.value))) =
          (all_prices_of raw tom multi).filter (fun s => decide (minp ≤ s.value)) := by
        refine sortByLe_of_pairwise _ _ ?_
        refine List.Pairwise.imp_of_mem (fun hxa hxb hxr => ?_) hprof_pw
        exact decide_eq_true (le_of_lt (lt_of_lt_of_le (hprof_lt _ hxa) hxr))
      have hps_go : project_battery_state
          ((all_prices_of raw tom multi).filter (fun s => decide (minp ≤ s.value)))
          (cap * (max 0 (min 100 lvl)) / 100) cap (max 0 rate)
          (calculate_slot_duration (all_prices_of raw tom multi)) (some wh) =
          project_go cap (max 0 rate)
            (calculate_slot_duration (all_prices_of raw tom multi)) (some wh) none
            ((all_prices_of raw tom multi).filter (fun s => decide (minp ≤ s.value)))
            (cap * (max 0 (min 100 lvl)) / 100) := by
        rw [project_battery_state, hsort_id]
      have hm : ∀ p ∈ project_battery_state
          ((all_prices_of raw tom multi).filter (fun s => decide (minp ≤ s.value)))
          (cap * (max 0 (min 100 lvl)) / 100) cap (max 0 rate)
          (calculate_slot_duration (all_prices_of raw tom multi)) (some wh),
          p.battery_after = p.battery_before - p.energy_kwh := by
        rw [hps_go]
        exact fun p hp => (project_go_mem _ _ _ _ _ _ _ p hp).1
      have hchain_ps : ∀ p ∈ project_battery_state
          ((all_prices_of raw tom multi).filter (fun s => decide (minp ≤ s.value)))
          (cap * (max 0 (min 100 lvl)) / 100) cap (max 0 rate)
          (calculate_slot_duration (all_prices_of raw tom multi)) (some wh),
          ∀ q ∈ project_battery_state
          ((all_prices_of raw tom multi).filter (fun s => decide (minp ≤ s.value)))
          (cap * (max 0 (min 100 lvl)) / 100) cap (max 0 rate)
          (calculate_slot_duration (all_prices_of raw tom multi)) (some wh),
          p.stop = q.start → p.battery_after ≤ q.battery_before := by
        rw [hps_go]
        exact project_go_chain cap (max 0 rate)
          (calculate_slot_duration (all_prices_of raw tom multi)) (some wh) hE.le
          ((all_prices_of raw tom multi).filter (fun s => decide (minp ≤ s.value)))
          none (cap * (max 0 (min 100 lvl)) / 100) hprof_pw hprof_lt hble
      have hsel_mem : ∀ x ∈ discharge_select_solar
          (calculate_slot_duration (all_prices_of raw tom multi)) mh
          (sortByLe (fun a b => decide (b.price ≤ a.price))
            (project_battery_state
              ((all_prices_of raw tom multi).filter (fun s => decide (minp ≤ s.value)))
              (cap * (max 0 (min 100 lvl)) / 100) cap (max 0 rate)
              (calculate_slot_duration (all_prices_of raw tom multi)) (some wh))),
          ∃ q ∈ project_battery_state
            ((all_prices_of raw tom multi).filter (fun s => decide (minp ≤ s.value)))
            (cap * (max 0 (min 100 lvl)) / 100) cap (max 0 rate)
            (calculate_slot_duration (all_prices_of raw tom multi)) (some wh),
            x = projToSel (calculate_slot_duration (all_prices_of raw tom multi)) q := by
        intro x hx
        rcases discharge_select_solar_mem _ mh _ x hx with ⟨q, hq, hxq⟩
        exact ⟨q, (mem_sortByLe _ q _).mp hq, hxq⟩
      have hall : ∀ y ∈ g, (y.battery_before).isSome ∧ (y.battery_after).isSome ∧
          y.clamped = false ∧
          y.battery_after.getD 0 = y.battery_before.getD 0 - y.energy_kwh := by
        intro y hy
        rcases hsel_mem y (hgmem y hy) with ⟨q, hq, rfl⟩
        refine ⟨by simp [projToSel], by simp [projToSel], by simp [projToSel], ?_⟩
        have := hm q hq
        simp only [projToSel, Option.getD_some]
        exact this
      have hEpos : 0 < (g.map SelSlot.energy_kwh).sum := by
        have hconst : ∀ y ∈ g, y.energy_kwh = (max 0 rate) *
            calculate_slot_duration (all_prices_of raw tom multi) := by
          intro y hy
          rcases hsel_mem y (hgmem y hy) with ⟨q, hq, rfl⟩
          rw [hps_go] at hq
          have := (project_go_mem _ _ _ _ _ _ _ q hq).2
          simpa [projToSel] using this
        rw [sum_energy_const _ g hconst]
        have hglen : 0 < g.length := List.length_pos.mpr hgne
        exact mul_pos hE (by exact_mod_cast hglen)
      obtain ⟨x, t, rfl⟩ : ∃ x t, g = x :: t := by
        cases g with
        | nil => exact absurd rfl hgne
        | cons x t => exact ⟨x, t, rfl⟩
      have htel : ((x :: t).head (by simp)).battery_before.getD 0 -
          ((x :: t).map SelSlot.energy_kwh).sum ≤
          ((x :: t).getLast (by simp)).battery_after.getD 0 := by
        have := group_chain (calculate_slot_duration (all_prices_of raw tom multi))
          (project_battery_state
            ((all_prices_of raw tom multi).filter (fun s => decide (minp ≤ s.value)))
            (cap * (max 0 (min 100 lvl)) / 100) cap (max 0 rate)
            (calculate_slot_duration (all_prices_of raw tom multi)) (some wh))
          hm hchain_ps t x hgch (fun y hy => hsel_mem y (hgmem y hy))
        simpa using this
      exact merge_group_reserve res cap (by exact ne_of_gt hcap) (x :: t) (by simp)
        hall hEpos htel a ha

theorem C1_counterexample :
    0 < (10 : ℚ) ∧
    ∃ r ∈ (select_discharge_slots ⟨[]⟩ 0
        [⟨0, 1, 6/10⟩, ⟨1, 2, 55/100⟩, ⟨0, 1, 5/10⟩]
        (3/10) 10 45 1 (some 2) [] (some []) false 25).1,
      r.battery_after = some (3/2) ∧ r.clamped = false ∧
        (3/2 : ℚ) < 10 * 25 / 100 := by
  refine ⟨by norm_num, ?_⟩
  have h : (select_discharge_slots ⟨[]⟩ 0
      [⟨0, 1, 6/10⟩, ⟨1, 2, 55/100⟩, ⟨0, 1, 5/10⟩]
      (3/10) 10 45 1 (some 2) [] (some []) false 25).1 =
      [⟨0, 2, 23/40, 2, 2, 23/20, 0, some (9/2), some (3/2), false, some 2, none⟩] := by
    norm_num [select_discharge_slots, validate_inputs, clean_expired_cache, get_cached,
      select_discharge_compute, discharge_selected_pre, all_prices_of,
      estimate_solar_impact, calculate_slot_duration, sortByLe, insertByLe,
      project_battery_state, project_go, solar_credit, calculate_solar_between_slots,
      sumHours, lookupWh, discharge_select_solar, greedy_hours, projToSel,
      combine_consecutive_slots, combine_go, merge_slot_group, merge_multi, merge_base,
      merge_shrink, set_cached, List.filter, List.cons_ne_nil, Option.map_some',
      Option.map_none']
  rw [h]
  exact ⟨_, List.mem_singleton.mpr rfl, rfl, rfl, by norm_num⟩

theorem C1_reserve_invariant_amended_witness :
    (0 : ℚ) < 10 ∧
    Chrono (all_prices_of [⟨0, 1, 6/10⟩, ⟨1, 2, 55/100⟩] [] false) ∧
    ∀ r ∈ (select_discharge_slots ⟨[]⟩ 0 [⟨0, 1, 6/10⟩, ⟨1, 2, 55/100⟩]
        (3/10) 10 45 1 (some 2) [] (some []) false 25).1,
      ∀ a, r.battery_after = some a →
        (10 : ℚ) * 25 / 100 ≤ a ∧ (r.clamped = true → a = 10 * 25 / 100) := by
  have hch : Chrono (all_prices_of [⟨0, 1, 6/10⟩, ⟨1, 2, 55/100⟩] [] false) := by
    constructor <;> norm_num [all_prices_of, List.pairwise_cons]
  exact ⟨by norm_num, hch,
    C1_reserve_invariant_amended 0 [⟨0, 1, 6/10⟩, ⟨1, 2, 55/100⟩] (3/10) 10 45 1
      (some 2) [] (some []) false 25 (by norm_num) hch⟩
